import Mathlib

/-!
Verification of the takenote note-taking application (noteManager.js: the
`NoteManager` store and the `TakenoteApp` coordinator).

The embedding works over `List Char` for all text processing, with thin
`String` wrappers.  JavaScript string primitives used by the source
(`trim`, `split`, `substring`, regular-expression replacement) are
reimplemented here on character lists.  Timestamps are modelled as natural
numbers supplied to each operation (the instant at which the handler runs);
the entropy consumed by `Math.random` is modelled as a string supplied by
the environment.  Browser capabilities (DOM text extraction, `localStorage`)
are modelled explicitly: `localStorage` as a record of the two persisted
keys, and the DOM `innerHTML`/`textContent` conversion as tag removal plus
decoding of the entities the application itself produces.
-/

/-- Whitespace, as used by JavaScript `trim` and `\s` on the app's text
(space, tab, newline, carriage return). -/
def wsChar (c : Char) : Bool :=
  c = ' ' || c = '\t' || c = '\n' || c = '\r'

/-- Drop leading whitespace (the front half of JavaScript `trim`). -/
def dropWs (l : List Char) : List Char :=
  l.dropWhile wsChar

/-- Drop trailing whitespace (the back half of JavaScript `trim`). -/
def trimEnd (l : List Char) : List Char :=
  (dropWs l.reverse).reverse

/-- JavaScript `String.prototype.trim` on a character list. -/
def trimL (l : List Char) : List Char :=
  trimEnd (dropWs l)

/-- JavaScript `String.prototype.trim`. -/
def trimStr (s : String) : String :=
  ⟨trimL s.data⟩

/-- JavaScript `String.prototype.split` with a single-character separator
described by the predicate `p`: a piece before every separator occurrence and
one after the last (so the result is never empty). -/
def splitP (p : Char → Bool) : List Char → List (List Char)
  | [] => [[]]
  | c :: r =>
    if p c then [] :: splitP p r
    else
      match splitP p r with
      | [] => [[c]]
      | l :: ls => (c :: l) :: ls

/-- JavaScript `content.split('\n')` on a character list. -/
def splitNlL (l : List Char) : List (List Char) :=
  splitP (fun c => c = '\n') l

/-- Scanner for the regular-expression replacement
`content.replace(/<[^>]*>/g, '')` from `extractFirstLineAsTitle`.  The
pattern consumes a `<`, then any characters other than `>`, then the first
`>`.  `pending = some buf` means the scanner is inside a candidate match
begun at a `<`, with `buf` holding (reversed) the characters consumed so
far; when the text ends inside a candidate the pattern never matched there
(no `>` remained, so no later `<` can match either) and the buffered text is
emitted verbatim, exactly as the global replace leaves it. -/
def stripTagsAux (pending : Option (List Char)) : List Char → List Char
  | [] =>
    match pending with
    | none => []
    | some buf => buf.reverse
  | c :: r =>
    match pending with
    | none => if c = '<' then stripTagsAux (some [c]) r else c :: stripTagsAux none r
    | some buf => if c = '>' then stripTagsAux none r else stripTagsAux (some (c :: buf)) r

/-- The regular-expression replacement `content.replace(/<[^>]*>/g, '')`:
each `<` followed (possibly after non-`>` characters) by a `>` is removed
together with everything between; a `<` with no later `>` stays. -/
def stripTags (l : List Char) : List Char :=
  stripTagsAux none l

/-- One character of the browser's `innerHTML` escaping of a text node (the
`escapeHtml` helper: assigning `textContent` and reading `innerHTML` escapes
exactly `&`, `<` and `>`). -/
def escapeChar (c : Char) : List Char :=
  if c = '&' then '&' :: 'a' :: 'm' :: 'p' :: ';' :: []
  else if c = '<' then '&' :: 'l' :: 't' :: ';' :: []
  else if c = '>' then '&' :: 'g' :: 't' :: ';' :: []
  else [c]

/-- The `escapeHtml` helper of `NoteManager` on a character list. -/
def escapeL : List Char → List Char
  | [] => []
  | c :: r => escapeChar c ++ escapeL r

/-- Decoding of the entities the application produces, the second half of the
DOM `innerHTML`/`textContent` conversion used by `exportNoteAsText` and
`getNoteStats` (the spec describes markup stripping as removing tags and
decoding a small set of entities). -/
def decodeEntities : List Char → List Char
  | [] => []
  | '&' :: 'a' :: 'm' :: 'p' :: ';' :: r => '&' :: decodeEntities r
  | '&' :: 'l' :: 't' :: ';' :: r => '<' :: decodeEntities r
  | '&' :: 'g' :: 't' :: ';' :: r => '>' :: decodeEntities r
  | c :: r => c :: decodeEntities r

/-- The DOM conversion `tempDiv.innerHTML = content; tempDiv.textContent`
used by `exportNoteAsText` and `getNoteStats`: remove tags, decode entities. -/
def htmlToPlainText (content : String) : String :=
  ⟨decodeEntities (stripTags content.data)⟩

/-- JavaScript `String.prototype.toLowerCase` (ASCII, as the app only
compares ASCII extensions). -/
def strToLower (s : String) : String :=
  ⟨s.data.map Char.toLower⟩

/-- JavaScript `String.prototype.endsWith`. -/
def strEndsWith (s suffix : String) : Bool :=
  suffix.data.isSuffixOf s.data

/-- JavaScript `String.prototype.substring(0, n)`. -/
def strTake (s : String) (n : Nat) : String :=
  ⟨s.data.take n⟩

/-- JavaScript `String.prototype.length`. -/
def strLength (s : String) : Nat :=
  s.data.length

/-- A note record, as created by `NoteManager.createNote`.  Timestamps
(ISO strings produced from `new Date()` in the source) are modelled as
natural clock values. -/
structure Note where
  id : String
  title : String
  content : String
  createdAt : Nat
  updatedAt : Nat
deriving Repr, DecidableEq

/-- The two `localStorage` keys the store persists: `takenote-notes`
(serialized collection, `none` when the key is absent) and
`takenote-active-id` (a plain string, `""` standing for a cleared pointer,
as `saveNotesToStorage` writes `this.activeNoteId || ''`). -/
structure Storage where
  storedNotes : Option (List Note)
  storedActiveId : String
deriving Repr, DecidableEq

/-- The mutable state of a `NoteManager` instance together with its backing
store. -/
structure StoreState where
  notes : List Note
  activeNoteId : Option String
  storage : Storage
deriving Repr, DecidableEq

/-- A store with no notes, no active note and empty backing storage. -/
def emptyStore : StoreState :=
  ⟨[], none, ⟨none, ""⟩⟩

namespace NoteManager

/-- `generateId`: `'note_' + Date.now() + '_' + Math.random().toString(36).substr(2, 9)`.
The clock reading and the random suffix are inputs from the environment. -/
def generateId (now : Nat) (rand : String) : String :=
  "note_" ++ Nat.repr now ++ "_" ++ rand

/-- `saveNotesToStorage`: writes the collection and `activeNoteId || ''`
to the two storage keys. -/
def saveNotesToStorage (s : StoreState) : StoreState :=
  { s with storage := ⟨some s.notes, s.activeNoteId.getD ""⟩ }

/-- `createNote(title = 'Untitled Note', content = '')`: fresh id, equal
timestamps (the operation runs at instant `now`), unshift to the front,
set active, persist, return the note. -/
def createNote (s : StoreState) (now : Nat) (rand : String)
    (title : String := "Untitled Note") (content : String := "") :
    Note × StoreState :=
  let note : Note := ⟨generateId now rand, title, content, now, now⟩
  (note, saveNotesToStorage { s with notes := note :: s.notes, activeNoteId := some note.id })

/-- `getNoteById`: first note with the given id. -/
def getNoteById (s : StoreState) (id : String) : Option Note :=
  s.notes.find? (fun n => n.id == id)

/-- `getActiveNote`: resolve the active pointer through `getNoteById`. -/
def getActiveNote (s : StoreState) : Option Note :=
  match s.activeNoteId with
  | none => none
  | some id => getNoteById s id

/-- The partial-update record passed to `updateNote`.  The application's
callers pass subsets of `{title, content}`; the store itself always
overwrites `updatedAt` after the merge and never exposes id or `createdAt`
updates. -/
structure NoteUpdates where
  title : Option String := none
  content : Option String := none
deriving Repr, DecidableEq

/-- Replace the first note with the given id by `f` applied to it, returning
the new note and the new list (`findIndex` + assignment in the source);
`none` when no note matches. -/
def modifyFirst (f : Note → Note) (id : String) : List Note → Option (Note × List Note)
  | [] => none
  | n :: rest =>
    if n.id == id then
      let n' := f n
      some (n', n' :: rest)
    else
      (modifyFirst f id rest).map (fun p => (p.1, n :: p.2))

/-- Merge an update record into a note, overwriting `updatedAt` (the spread
in `updateNote`). -/
def applyUpdates (u : NoteUpdates) (now : Nat) (n : Note) : Note :=
  { n with
    title := u.title.getD n.title
    content := u.content.getD n.content
    updatedAt := now }

/-- `updateNote(id, updates)`: merge into the matching note, persist, return
it; `(none, unchanged)` when the id is absent. -/
def updateNote (s : StoreState) (id : String) (u : NoteUpdates) (now : Nat) :
    Option Note × StoreState :=
  match modifyFirst (applyUpdates u now) id s.notes with
  | none => (none, s)
  | some (n', notes') => (some n', saveNotesToStorage { s with notes := notes' })

/-- `updateNoteTitle(id, newTitle)`: trim, coerce an empty result to
"Untitled Note", bump `updatedAt`, persist. -/
def updateNoteTitle (s : StoreState) (id newTitle : String) (now : Nat) :
    Option Note × StoreState :=
  match modifyFirst
      (fun n =>
        { n with
          title := if trimStr newTitle = "" then "Untitled Note" else trimStr newTitle
          updatedAt := now })
      id s.notes with
  | none => (none, s)
  | some (n', notes') => (some n', saveNotesToStorage { s with notes := notes' })

/-- `extractFirstLineAsTitle`: strip tags, trim; if nothing remains return
`""`; otherwise the trimmed first line (with the source's unreachable
`|| 'Untitled Note'` fallback kept). -/
def extractFirstLineAsTitle (content : String) : String :=
  if content = "" then ""
  else
    let plainText := trimL (stripTags content.data)
    if plainText = [] then ""
    else
      let firstLine := trimL (plainText.takeWhile (fun c => ¬ c = '\n'))
      if firstLine = [] then "Untitled Note" else (⟨firstLine⟩ : String)

/-- `updateNoteTitleFromContent(id, content)`: derive a title from the
content's first extractable line (truncated to 50 characters with an
ellipsis when longer) and store the content; when nothing is extractable,
store the content only. -/
def updateNoteTitleFromContent (s : StoreState) (id content : String) (now : Nat) :
    StoreState :=
  let firstLine := extractFirstLineAsTitle content
  if firstLine ≠ "" then
    (updateNote s id
      ⟨some (strTake firstLine 50 ++ (if 50 < strLength firstLine then "..." else "")),
        some content⟩ now).2
  else
    (updateNote s id ⟨none, some content⟩ now).2

/-- Remove the first note with the given id (`findIndex` + `splice(idx, 1)`);
`none` when no note matches. -/
def removeFirst (id : String) : List Note → Option (List Note)
  | [] => none
  | n :: rest =>
    if n.id == id then some rest
    else (removeFirst id rest).map (fun l => n :: l)

/-- `deleteNote(id)`: remove the note; when it was the active one, promote
the new first note (or clear the pointer); persist; report whether a note
was removed. -/
def deleteNote (s : StoreState) (id : String) : Bool × StoreState :=
  match removeFirst id s.notes with
  | none => (false, s)
  | some notes' =>
    let active' :=
      if s.activeNoteId = some id then
        match notes' with
        | [] => none
        | n :: _ => some n.id
      else s.activeNoteId
    (true, saveNotesToStorage { s with notes := notes', activeNoteId := active' })

/-- `setActiveNote(id)`: validate existence, then switch the pointer; no
persistence of its own. -/
def setActiveNote (s : StoreState) (id : String) : Option Note × StoreState :=
  match getNoteById s id with
  | some n => (some n, { s with activeNoteId := some id })
  | none => (none, s)

/-- `sanitizeFilename`: every non-alphanumeric character becomes `_`, the
rest is lowercased. -/
def sanitizeFilename (f : String) : String :=
  ⟨f.data.map (fun c => if c.isAlphanum then c.toLower else '_')⟩

/-- The record returned by `exportNoteAsText`. -/
structure ExportData where
  title : String
  content : String
  filename : String
deriving Repr, DecidableEq

/-- `exportNoteAsText(id)`: plain-text rendering of the note's content
(DOM text extraction) plus a sanitized `.txt` filename. -/
def exportNoteAsText (s : StoreState) (id : String) : Option ExportData :=
  (getNoteById s id).map fun note =>
    ⟨note.title, htmlToPlainText note.content, sanitizeFilename note.title ++ ".txt"⟩

/-- The regular-expression replacement `filename.replace(/\.[^/.]+$/, '')`:
drop a final extension consisting of a dot followed by at least one
character that is neither a dot nor a slash. -/
def stripExt (f : String) : String :=
  let rev := f.data.reverse
  let extRev := rev.takeWhile (fun c => ¬ c = '.')
  if rev.any (fun c => c = '.') ∧ extRev ≠ [] ∧ ¬ extRev.any (fun c => c = '/') then
    ⟨((rev.dropWhile (fun c => ¬ c = '.')).tail).reverse⟩
  else f

/-- The non-blank trimmed lines of a text, the pieces `importTextContent`
turns into paragraph blocks. -/
def importPieces (content : String) : List (List Char) :=
  ((splitNlL content.data).map trimL).filter (fun l => l ≠ [])

/-- `importTextContent(content, filename)`: title from the filename stem (or
"Imported Note" when no filename is given), one `<p>` block per non-blank
line with the line's text escaped, then `createNote`. -/
def importTextContent (s : StoreState) (content filename : String) (now : Nat)
    (rand : String) : Note × StoreState :=
  let title := if filename ≠ "" then stripExt filename else "Imported Note"
  let blocks := (importPieces content).map
    (fun l => '<' :: 'p' :: '>' :: (escapeL l ++ ('<' :: '/' :: 'p' :: '>' :: [])))
  let htmlContent : String := ⟨blocks.flatten⟩
  createNote s now rand title (if htmlContent = "" then "<p></p>" else htmlContent)

/-- The statistics record returned by `getNoteStats`. -/
structure Stats where
  words : Nat
  characters : Nat
  sentences : Nat
deriving Repr, DecidableEq

/-- Sentence delimiters: the character class `[.!?]`. -/
def sentCh (c : Char) : Bool :=
  c = '.' || c = '!' || c = '?'

/-- `getNoteStats(content)`: characters, whitespace-delimited word count of
the trimmed text, and count of sentence segments that contain visible text.
JavaScript splits on runs (`/\s+/`, `/[.!?]+/`); splitting at every
delimiter character and discarding the empty/blank pieces counts the same
segments, since the filters below discard exactly the pieces a run-splitter
would merge away. -/
def getNoteStats (content : String) : Stats :=
  if content = "" then ⟨0, 0, 0⟩
  else
    let plainText := htmlToPlainText content
    let characters := strLength plainText
    let trimmed := trimStr plainText
    let words :=
      if trimmed = "" then 0
      else ((splitP wsChar trimmed.data).filter (fun l => l ≠ [])).length
    let sentences :=
      if trimmed = "" then 0
      else ((splitP sentCh plainText.data).filter (fun l => trimL l ≠ [])).length
    ⟨words, characters, sentences⟩

/-- `loadNotesFromStorage`: reconstruct the collection and active pointer
from storage, falling back to a seeded welcome note when the collection is
empty or the stored payload cannot be parsed (`corrupt`). -/
def loadNotesFromStorage (storage : Storage) (corrupt : Bool) (now : Nat)
    (rand : String) : StoreState :=
  if corrupt then
    (createNote ⟨[], none, storage⟩ now rand "Welcome to takenote"
      "<p>Welcome to takenote! Start taking notes.</p>").2
  else
    let notes := storage.storedNotes.getD []
    let s₁ : StoreState := ⟨notes, none, storage⟩
    let active :=
      if storage.storedActiveId ≠ "" ∧ (getNoteById s₁ storage.storedActiveId).isSome then
        some storage.storedActiveId
      else
        match notes with
        | [] => none
        | n :: _ => some n.id
    let s₂ : StoreState := ⟨notes, active, storage⟩
    if notes = [] then
      (createNote s₂ now rand "Welcome to takenote"
        "<p>Welcome to takenote! This is your first note.</p><p>You can:</p><ul><li>Format text with the toolbar</li><li>Create new notes</li><li>Upload and download files</li><li>And much more!</li></ul>").2
    else s₂

end NoteManager

/-- The coordinator's state (`TakenoteApp`): the store, the coordinator's
own open-note pointer, and the editing surface's current content (the
editor is a black box exposing get/set content). -/
structure AppState where
  store : StoreState
  currentNoteId : Option String
  editorContent : String
deriving Repr, DecidableEq

namespace TakenoteApp

/-- `saveCurrentNote`: flush the editor's content into the open note via
`updateNoteTitleFromContent`; a no-op when no note is open. -/
def saveCurrentNote (app : AppState) (now : Nat) : AppState :=
  match app.currentNoteId with
  | none => app
  | some cur =>
    if cur = "" then app
    else
      { app with store := NoteManager.updateNoteTitleFromContent app.store cur app.editorContent now }

/-- `createNewNote`: create a store note with the default title/content,
open it and reset the editing surface to the empty paragraph. -/
def createNewNote (app : AppState) (now : Nat) (rand : String) : AppState :=
  let r := NoteManager.createNote app.store now rand
  ⟨r.2, some r.1.id, "<p><br></p>"⟩

/-- `switchToNote(noteId)`: fetch the target note; if some other note is
open, save it first; set the store's active pointer; load the target's
content into the editor.  A no-op when the target does not exist. -/
def switchToNote (app : AppState) (noteId : String) (now : Nat) : AppState :=
  match NoteManager.getNoteById app.store noteId with
  | none => app
  | some note =>
    let app₁ :=
      match app.currentNoteId with
      | none => app
      | some cur => if cur = "" ∨ cur = noteId then app else saveCurrentNote app now
    let store₂ := (NoteManager.setActiveNote app₁.store noteId).2
    ⟨store₂, some noteId, note.content⟩

/-- `deleteNote(noteId, title)`: delegate to the store; when the open note
was the one deleted, load the store's new active note into the editor, or
create a fresh note when none remain.  No flush of pending edits occurs. -/
def deleteNote (app : AppState) (noteId : String) (now : Nat) (rand : String) : AppState :=
  let r := NoteManager.deleteNote app.store noteId
  if r.1 then
    if app.currentNoteId = some noteId then
      match NoteManager.getActiveNote r.2 with
      | some newActive => ⟨r.2, some newActive.id, newActive.content⟩
      | none => createNewNote ⟨r.2, app.currentNoteId, app.editorContent⟩ now rand
    else ⟨r.2, app.currentNoteId, app.editorContent⟩
  else app

/-- `editNoteTitle(noteId, newTitle)`: delegate to the store's
`updateNoteTitle`. -/
def editNoteTitle (app : AppState) (noteId newTitle : String) (now : Nat) : AppState :=
  { app with store := (NoteManager.updateNoteTitle app.store noteId newTitle now).2 }

/-- The MIME types `handleFileUpload` accepts. -/
def allowedTypes : List String := ["text/plain", "text/markdown"]

/-- The filename suffixes `handleFileUpload` accepts. -/
def allowedExtensions : List String := [".txt", ".md"]

/-- The name and declared MIME type of an uploaded file. -/
structure FileInfo where
  name : String
  type' : String
deriving Repr, DecidableEq

/-- `handleFileUpload(file)`: validate the declared type or the lowercased
name's suffix; reject (user-visible error, no state change) otherwise; read
the file (`readResult` is the asynchronous read's outcome, `none` on a read
error); on success import the text as a new note and switch to it. -/
def handleFileUpload (app : AppState) (file : FileInfo) (readResult : Option String)
    (now : Nat) (rand : String) : AppState :=
  let hasValidType := allowedTypes.contains file.type'
  let hasValidExtension := allowedExtensions.any (fun ext => strEndsWith (strToLower file.name) ext)
  if ¬ hasValidType ∧ ¬ hasValidExtension then app
  else
    match readResult with
    | none => app
    | some content =>
      let r := NoteManager.importTextContent app.store content file.name now rand
      switchToNote ⟨r.2, app.currentNoteId, app.editorContent⟩ r.1.id now

end TakenoteApp

/-! ### Specification-side definitions

These formalise the claims' own wording, to be compared with the embedded
operations above. -/

/-- The invariant of claim C6: the active pointer, when set, references a
note present in the collection.  (That at most one note is active is
structural here: the pointer is a single optional id.) -/
def StoreInv (s : StoreState) : Prop :=
  ∀ a, s.activeNoteId = some a → ∃ n ∈ s.notes, n.id = a

/-- Claim wording (C7): the first line of the stripped text that is
non-empty after trimming, if any. -/
def firstNonBlankLine (t : List Char) : Option (List Char) :=
  ((splitNlL t).map trimL).find? (fun l => l ≠ [])

/-- Claim wording (C8): the number of whitespace-delimited tokens, counted
directly by a scan (`prevWs` records whether the previous character was
whitespace or the start of the text). -/
def tokAux (prevWs : Bool) : List Char → Nat
  | [] => 0
  | c :: r =>
    if wsChar c then tokAux true r
    else (if prevWs then 1 else 0) + tokAux false r

/-- Claim wording (C8): whitespace-delimited token count of a text. -/
def countTokens (t : List Char) : Nat :=
  tokAux true t

/-- Scan counting sentence segments that contain a non-whitespace character;
`counted` records whether the current segment has already been counted. -/
def sentAux (counted : Bool) : List Char → Nat
  | [] => 0
  | c :: r =>
    if NoteManager.sentCh c then sentAux false r
    else if wsChar c then sentAux counted r
    else (if counted then 0 else 1) + sentAux true r

/-- Number of non-blank segments between runs of `.`, `!`, `?`. -/
def countSentenceSegments (t : List Char) : Nat :=
  sentAux false t

/-- Claim wording (C8), taken literally: the number of non-empty segments
produced by splitting on the sentence delimiters (a whitespace-only segment
counts as non-empty here). -/
def countSegmentsNonempty (t : List Char) : Nat :=
  ((splitP NoteManager.sentCh t).filter (fun l => l ≠ [])).length

/-- A character that is not markup-significant for the app's escaping and
tag stripping. -/
def noMk (c : Char) : Prop :=
  c ≠ '&' ∧ c ≠ '<' ∧ c ≠ '>'

instance (c : Char) : Decidable (noMk c) := by
  unfold noMk
  infer_instance

/-! ### Lemmas about the text primitives -/

lemma dropWs_cons_of_ws {c : Char} (r : List Char) (h : wsChar c = true) :
    dropWs (c :: r) = dropWs r := by
  simp [dropWs, List.dropWhile_cons, h]

lemma dropWs_cons_of_not {c : Char} (r : List Char) (h : wsChar c = false) :
    dropWs (c :: r) = c :: r := by
  simp [dropWs, List.dropWhile_cons, h]

lemma trimEnd_append_allws {e : List Char} (b : List Char)
    (h : ∀ c ∈ e, wsChar c = true) : trimEnd (b ++ e) = trimEnd b := by
  unfold trimEnd dropWs
  rw [List.reverse_append, List.dropWhile_append_of_pos]
  intro c hc
  exact h c (List.mem_reverse.mp hc)

lemma exists_trimEnd_decomp (l : List Char) :
    ∃ w, (∀ c ∈ w, wsChar c = true) ∧ l = trimEnd l ++ w := by
  refine ⟨(l.reverse.takeWhile wsChar).reverse, ?_, ?_⟩
  · intro c hc
    exact List.mem_takeWhile_imp (List.mem_reverse.mp hc)
  · conv_lhs => rw [← l.reverse_reverse,
      ← List.takeWhile_append_dropWhile (p := wsChar) (l := l.reverse)]
    rw [List.reverse_append]
    rfl

lemma trimEnd_cons_of_not {c : Char} (r : List Char) (h : wsChar c = false) :
    trimEnd (c :: r) = c :: trimEnd r := by
  unfold trimEnd dropWs
  rw [show (c :: r).reverse = r.reverse ++ [c] by simp, List.dropWhile_append]
  by_cases he : (r.reverse.dropWhile wsChar).isEmpty
  · rw [if_pos he]
    rw [List.isEmpty_iff] at he
    rw [he]
    simp [List.dropWhile_cons, h]
  · rw [if_neg he, List.reverse_append]
    rfl

lemma trimL_cons_of_ws {c : Char} (r : List Char) (h : wsChar c = true) :
    trimL (c :: r) = trimL r := by
  unfold trimL
  rw [dropWs_cons_of_ws _ h]

lemma trimL_cons_of_not {c : Char} (r : List Char) (h : wsChar c = false) :
    trimL (c :: r) = c :: trimEnd r := by
  unfold trimL
  rw [dropWs_cons_of_not _ h, trimEnd_cons_of_not _ h]

lemma trimL_eq_nil_iff {l : List Char} :
    trimL l = [] ↔ ∀ c ∈ l, wsChar c = true := by
  constructor
  · intro h c hc
    unfold trimL trimEnd at h
    rw [List.reverse_eq_nil_iff] at h
    have h1 : ∀ d ∈ dropWs l, wsChar d = true := by
      intro d hd
      have := List.dropWhile_eq_nil_iff.mp h d (List.mem_reverse.mpr hd)
      simpa using this
    have hsplit : l.takeWhile wsChar ++ l.dropWhile wsChar = l :=
      List.takeWhile_append_dropWhile wsChar l
    rw [← hsplit] at hc
    rcases List.mem_append.mp hc with h2 | h2
    · exact List.mem_takeWhile_imp h2
    · exact h1 c h2
  · intro h
    have h1 : dropWs l = [] := List.dropWhile_eq_nil_iff.mpr (by simpa using h)
    unfold trimL trimEnd
    rw [h1]
    rfl

lemma takeWhile_append_allws (p : Char → Bool) (x w : List Char)
    (h : ∀ c ∈ w, wsChar c = true) :
    ∃ e, (∀ c ∈ e, wsChar c = true) ∧
      (x ++ w).takeWhile p = x.takeWhile p ++ e := by
  induction x with
  | nil =>
    refine ⟨w.takeWhile p, ?_, by simp⟩
    intro c hc
    exact h c ((List.takeWhile_sublist p).subset hc)
  | cons c x ih =>
    by_cases hp : p c = true
    · obtain ⟨e, he, heq⟩ := ih
      refine ⟨e, he, ?_⟩
      rw [List.cons_append, List.takeWhile_cons_of_pos hp,
        List.takeWhile_cons_of_pos hp, heq, List.cons_append]
    · refine ⟨[], by simp, ?_⟩
      rw [List.cons_append, List.takeWhile_cons_of_neg (by simp [hp]),
        List.takeWhile_cons_of_neg (by simp [hp]), List.append_nil]

lemma trimEnd_takeWhile_trimEnd (p : Char → Bool) (r : List Char) :
    trimEnd ((trimEnd r).takeWhile p) = trimEnd (r.takeWhile p) := by
  obtain ⟨w, hw, hdec⟩ := exists_trimEnd_decomp r
  obtain ⟨e, he, heq⟩ := takeWhile_append_allws p (trimEnd r) w hw
  have h2 : r.takeWhile p = (trimEnd r ++ w).takeWhile p := by
    conv_lhs => rw [hdec]
  rw [h2, heq, trimEnd_append_allws _ he]

lemma splitP_ne_nil (p : Char → Bool) (l : List Char) : splitP p l ≠ [] := by
  induction l with
  | nil => simp [splitP]
  | cons c r ih =>
    by_cases h : p c = true
    · simp [splitP, h]
    · simp only [splitP, h]
      cases hs : splitP p r with
      | nil => simp
      | cons l₀ ls => simp [hs]

lemma splitP_cons_of_pos {p : Char → Bool} {c : Char} (r : List Char) (h : p c = true) :
    splitP p (c :: r) = [] :: splitP p r := by
  simp [splitP, h]

lemma splitP_cons_of_neg {p : Char → Bool} {c : Char} (r : List Char) (h : p c = false) :
    ∃ l₀ ls, splitP p r = l₀ :: ls ∧ splitP p (c :: r) = (c :: l₀) :: ls := by
  cases hs : splitP p r with
  | nil => exact absurd hs (splitP_ne_nil p r)
  | cons l₀ ls =>
    refine ⟨l₀, ls, rfl, ?_⟩
    simp [splitP, h, hs]

lemma splitP_head {p : Char → Bool} :
    ∀ {r l₀ ls}, splitP p r = l₀ :: ls → l₀ = r.takeWhile (fun c => !(p c)) := by
  intro r
  induction r with
  | nil =>
    intro l₀ ls h
    simp only [splitP] at h
    cases h
    rfl
  | cons c r ih =>
    intro l₀ ls h
    by_cases hp : p c = true
    · rw [splitP_cons_of_pos r hp] at h
      cases h
      rw [List.takeWhile_cons_of_neg (by simp [hp])]
    · have hpf : p c = false := by simp_all
      obtain ⟨m, ms, hs, heq⟩ := splitP_cons_of_neg r hpf
      rw [heq] at h
      cases h
      rw [List.takeWhile_cons_of_pos (by simp [hpf]), ← ih hs]

lemma splitP_no_delim {p : Char → Bool} {l : List Char} (h : ∀ c ∈ l, p c = false) :
    splitP p l = [l] := by
  induction l with
  | nil => rfl
  | cons c r ih =>
    obtain ⟨m, ms, hs, heq⟩ := splitP_cons_of_neg r (h c (List.mem_cons_self c r))
    rw [ih (fun d hd => h d (List.mem_cons_of_mem c hd))] at hs
    cases hs
    rw [heq]

lemma splitP_mem_subset {p : Char → Bool} :
    ∀ {l li}, li ∈ splitP p l → ∀ {c}, c ∈ li → c ∈ l := by
  intro l
  induction l with
  | nil =>
    intro li hli c hc
    simp only [splitP, List.mem_singleton] at hli
    subst hli
    simp at hc
  | cons a r ih =>
    intro li hli c hc
    by_cases hp : p a = true
    · rw [splitP_cons_of_pos r hp] at hli
      rcases List.mem_cons.mp hli with h1 | h1
      · subst h1; simp at hc
      · exact List.mem_cons_of_mem a (ih h1 hc)
    · have hpf : p a = false := by simp_all
      obtain ⟨m, ms, hs, heq⟩ := splitP_cons_of_neg r hpf
      rw [heq] at hli
      rcases List.mem_cons.mp hli with h1 | h1
      · subst h1
        rcases List.mem_cons.mp hc with h2 | h2
        · exact h2 ▸ List.mem_cons_self a r
        · exact List.mem_cons_of_mem a (ih (hs ▸ List.mem_cons_self m ms) h2)
      · exact List.mem_cons_of_mem a (ih (hs ▸ List.mem_cons_of_mem m h1) hc)

/-- The first-line/trim computation of `extractFirstLineAsTitle` computes the
first non-blank line in the sense of the claims: trimming the whole stripped
text and then taking (and trimming) its first line yields exactly the first
line that is non-empty after trimming. -/
theorem firstLine_trim_eq (t : List Char) :
    ((splitNlL t).map trimL).find? (fun l => l ≠ []) =
      if trimL t = [] then none
      else some (trimL ((trimL t).takeWhile (fun c => ¬ c = '\n'))) := by
  induction t with
  | nil => simp [splitNlL, splitP, trimL, trimEnd, dropWs]
  | cons c r ih =>
    by_cases hw : wsChar c = true
    · rw [trimL_cons_of_ws r hw]
      by_cases hnl : c = '\n'
      · rw [show splitNlL (c :: r) = [] :: splitNlL r by
          unfold splitNlL
          exact splitP_cons_of_pos r (by simp [hnl])]
        rw [List.map_cons, List.find?_cons_of_neg _ (by simp [trimL, trimEnd, dropWs])]
        exact ih
      · obtain ⟨m, ms, hs, heq⟩ :=
          splitP_cons_of_neg (p := fun d => decide (d = '\n')) (c := c) r (by simp [hnl])
        rw [show splitNlL (c :: r) = (c :: m) :: ms from heq, List.map_cons,
          trimL_cons_of_ws m hw, ← List.map_cons, ← hs]
        exact ih
    · have hnl : ¬ c = '\n' := by
        intro h
        subst h
        simp [wsChar] at hw
      have hw' : wsChar c = false := by simp_all
      rw [trimL_cons_of_not r hw']
      rw [if_neg (by simp)]
      obtain ⟨m, ms, hs, heq⟩ :=
        splitP_cons_of_neg (p := fun d => decide (d = '\n')) (c := c) r (by simp [hnl])
      rw [show splitNlL (c :: r) = (c :: m) :: ms from heq, List.map_cons,
        trimL_cons_of_not m hw']
      rw [List.find?_cons_of_pos _ (by simp)]
      have hm : m = r.takeWhile (fun c => !(decide (c = '\n'))) := splitP_head hs
      rw [List.takeWhile_cons_of_pos (by simp [hnl])]
      rw [trimL_cons_of_not _ hw']
      have hbridge : (fun c : Char => !(decide (c = '\n'))) =
          (fun c : Char => decide (¬ c = '\n')) := by
        funext d
        simp [decide_not]
      rw [hm, hbridge, trimEnd_takeWhile_trimEnd]

/-- `extractFirstLineAsTitle` computes exactly the first non-blank line of
the tag-stripped content (and the source's `|| 'Untitled Note'` fallback is
unreachable). -/
theorem extractFirstLineAsTitle_eq (content : String) :
    NoteManager.extractFirstLineAsTitle content =
      ((firstNonBlankLine (stripTags content.data)).map
        (fun l => (⟨l⟩ : String))).getD "" := by
  unfold NoteManager.extractFirstLineAsTitle firstNonBlankLine
  rw [firstLine_trim_eq]
  by_cases h0 : content = ""
  · subst h0
    simp [stripTags, stripTagsAux, trimL, trimEnd, dropWs]
  · rw [if_neg h0]
    by_cases h1 : trimL (stripTags content.data) = []
    · simp [h1]
    · have hfind := firstLine_trim_eq (stripTags content.data)
      rw [if_neg h1] at hfind
      have hne := List.find?_some hfind
      simp only [ne_eq, decide_not, Bool.not_eq_true', decide_eq_false_iff_not] at hne
      simp [h1, hne]

lemma wsChar_of_sentCh {c : Char} (h : NoteManager.sentCh c = true) :
    wsChar c = false := by
  simp only [NoteManager.sentCh, Bool.or_eq_true, decide_eq_true_eq] at h
  rcases h with (h | h) | h <;> subst h <;> rfl

lemma sentCh_of_ws {c : Char} (h : wsChar c = true) :
    NoteManager.sentCh c = false := by
  simp only [wsChar, Bool.or_eq_true, decide_eq_true_eq] at h
  rcases h with ((h | h) | h) | h <;> subst h <;> rfl

lemma tokAux_eq (r : List Char) :
    tokAux true r = ((splitP wsChar r).filter (fun l => l ≠ [])).length ∧
      tokAux false r = (((splitP wsChar r).tail).filter (fun l => l ≠ [])).length := by
  induction r with
  | nil => simp [tokAux, splitP]
  | cons c r ih =>
    by_cases h : wsChar c = true
    · rw [splitP_cons_of_pos r h]
      constructor
      · rw [show tokAux true (c :: r) = tokAux true r by simp [tokAux, h]]
        rw [ih.1]
        simp
      · rw [show tokAux false (c :: r) = tokAux true r by simp [tokAux, h]]
        rw [ih.1]
        simp
    · have hf : wsChar c = false := by simp_all
      obtain ⟨m, ms, hs, heq⟩ := splitP_cons_of_neg r hf
      rw [heq]
      have htail : tokAux false r = (ms.filter (fun l => l ≠ [])).length := by
        rw [ih.2, hs]
        rfl
      constructor
      · rw [show tokAux true (c :: r) = 1 + tokAux false r by simp [tokAux, hf]]
        rw [htail]
        simp [List.filter_cons]
        omega
      · rw [show tokAux false (c :: r) = tokAux false r by simp [tokAux, hf]]
        rw [htail]
        rfl

lemma sentAux_eq (r : List Char) :
    sentAux false r = ((splitP NoteManager.sentCh r).filter (fun l => trimL l ≠ [])).length ∧
      sentAux true r =
        (((splitP NoteManager.sentCh r).tail).filter (fun l => trimL l ≠ [])).length := by
  induction r with
  | nil => simp [sentAux, splitP, trimL, trimEnd, dropWs]
  | cons c r ih =>
    by_cases hd : NoteManager.sentCh c = true
    · rw [splitP_cons_of_pos r hd]
      constructor
      · rw [show sentAux false (c :: r) = sentAux false r by simp [sentAux, hd]]
        rw [ih.1]
        simp [List.filter_cons, trimL, trimEnd, dropWs]
      · rw [show sentAux true (c :: r) = sentAux false r by simp [sentAux, hd]]
        rw [ih.1]
        simp
    · have hdf : NoteManager.sentCh c = false := by simp_all
      obtain ⟨m, ms, hs, heq⟩ := splitP_cons_of_neg r hdf
      rw [heq]
      have htail : sentAux true r = (ms.filter (fun l => trimL l ≠ [])).length := by
        rw [ih.2, hs]
        rfl
      by_cases hw : wsChar c = true
      · have hnb : trimL (c :: m) = trimL m := trimL_cons_of_ws m hw
        constructor
        · rw [show sentAux false (c :: r) = sentAux false r by simp [sentAux, hdf, hw]]
          rw [ih.1, hs]
          simp only [List.filter_cons, hnb]
          by_cases hm : trimL m = []
          · simp [hm]
          · simp [hm]
        · rw [show sentAux true (c :: r) = sentAux true r by simp [sentAux, hdf, hw]]
          rw [htail]
          rfl
      · have hwf : wsChar c = false := by simp_all
        have hnb : trimL (c :: m) ≠ [] := by
          rw [trimL_cons_of_not m hwf]
          simp
        constructor
        · rw [show sentAux false (c :: r) = 1 + sentAux true r by simp [sentAux, hdf, hwf]]
          rw [htail]
          rw [show ((c :: m) :: ms).filter (fun l => decide (trimL l ≠ [])) =
              (c :: m) :: ms.filter (fun l => decide (trimL l ≠ [])) from
            List.filter_cons_of_pos (by simpa using hnb)]
          simp [Nat.add_comm]
        · rw [show sentAux true (c :: r) = sentAux true r by simp [sentAux, hdf, hwf]]
          rw [htail]
          rfl

lemma tokAux_allws (b : Bool) (w : List Char) (h : ∀ c ∈ w, wsChar c = true) :
    tokAux b w = 0 := by
  induction w generalizing b with
  | nil => rfl
  | cons c r ih =>
    rw [show tokAux b (c :: r) = tokAux true r by
      simp [tokAux, h c (List.mem_cons_self c r)]]
    exact ih true (fun d hd => h d (List.mem_cons_of_mem c hd))

lemma sentAux_allws (b : Bool) (w : List Char) (h : ∀ c ∈ w, wsChar c = true) :
    sentAux b w = 0 := by
  induction w generalizing b with
  | nil => rfl
  | cons c r ih =>
    have hw := h c (List.mem_cons_self c r)
    rw [show sentAux b (c :: r) = sentAux b r by
      simp [sentAux, sentCh_of_ws hw, hw]]
    exact ih b (fun d hd => h d (List.mem_cons_of_mem c hd))

lemma tokAux_append_allws (b : Bool) (y w : List Char)
    (h : ∀ c ∈ w, wsChar c = true) : tokAux b (y ++ w) = tokAux b y := by
  induction y generalizing b with
  | nil =>
    rw [List.nil_append]
    rw [tokAux_allws b w h]
    rfl
  | cons c y ih =>
    by_cases hc : wsChar c = true
    · rw [List.cons_append,
        show tokAux b (c :: (y ++ w)) = tokAux true (y ++ w) by simp [tokAux, hc],
        show tokAux b (c :: y) = tokAux true y by simp [tokAux, hc]]
      exact ih true
    · have hcf : wsChar c = false := by simp_all
      rw [List.cons_append,
        show tokAux b (c :: (y ++ w)) = (if b then 1 else 0) + tokAux false (y ++ w) by
          simp [tokAux, hcf],
        show tokAux b (c :: y) = (if b then 1 else 0) + tokAux false y by
          simp [tokAux, hcf]]
      rw [ih false]

lemma tokAux_true_dropWs (x : List Char) :
    tokAux true (dropWs x) = tokAux true x := by
  induction x with
  | nil => rfl
  | cons c r ih =>
    by_cases hc : wsChar c = true
    · rw [dropWs_cons_of_ws r hc,
        show tokAux true (c :: r) = tokAux true r by simp [tokAux, hc]]
      exact ih
    · rw [dropWs_cons_of_not r (by simp_all)]

lemma tokAux_true_trimL (x : List Char) :
    tokAux true (trimL x) = tokAux true x := by
  obtain ⟨w, hw, hdec⟩ := exists_trimEnd_decomp (dropWs x)
  have h1 : tokAux true (trimL x) = tokAux true (trimEnd (dropWs x) ++ w) := by
    rw [tokAux_append_allws true _ w hw]
    rfl
  rw [h1, ← hdec, tokAux_true_dropWs]

/-- `getNoteStats` agrees with the direct scanning counts on the extracted
plain text: characters is its length, words the number of
whitespace-delimited tokens, sentences the number of non-blank sentence
segments. -/
theorem getNoteStats_eq (content : String) :
    NoteManager.getNoteStats content =
      ⟨countTokens (htmlToPlainText content).data,
        strLength (htmlToPlainText content),
        countSentenceSegments (htmlToPlainText content).data⟩ := by
  unfold NoteManager.getNoteStats countTokens countSentenceSegments
  by_cases h0 : content = ""
  · subst h0
    rfl
  · rw [if_neg h0]
    by_cases h1 : trimStr (htmlToPlainText content) = ""
    · have hall : ∀ c ∈ (htmlToPlainText content).data, wsChar c = true := by
        have hdata : trimL (htmlToPlainText content).data = [] := by
          have := congrArg String.data h1
          simpa [trimStr] using this
        exact trimL_eq_nil_iff.mp hdata
      have hw0 : tokAux true (htmlToPlainText content).data = 0 :=
        tokAux_allws true _ hall
      have hs0 : sentAux false (htmlToPlainText content).data = 0 :=
        sentAux_allws false _ hall
      simp [h1, hw0, hs0]
    · have hwords :
          ((splitP wsChar (trimStr (htmlToPlainText content)).data).filter
            (fun l => l ≠ [])).length = tokAux true (htmlToPlainText content).data := by
        rw [show (trimStr (htmlToPlainText content)).data =
            trimL (htmlToPlainText content).data from rfl]
        rw [← (tokAux_eq (trimL (htmlToPlainText content).data)).1, tokAux_true_trimL]
      have hsents :
          ((splitP NoteManager.sentCh (htmlToPlainText content).data).filter
            (fun l => trimL l ≠ [])).length = sentAux false (htmlToPlainText content).data :=
        ((sentAux_eq (htmlToPlainText content).data).1).symm
      simp only [ne_eq, decide_not] at hwords hsents
      simp [h1, hwords, hsents]

lemma stripTags_cons_ne {c : Char} (r : List Char) (h : ¬ c = '<') :
    stripTags (c :: r) = c :: stripTags r := by
  simp [stripTags, stripTagsAux, h]

lemma stripTags_append_nolt {a : List Char} (r : List Char)
    (h : ∀ c ∈ a, ¬ c = '<') : stripTags (a ++ r) = a ++ stripTags r := by
  induction a with
  | nil => rfl
  | cons c a ih =>
    rw [List.cons_append, stripTags_cons_ne _ (h c (List.mem_cons_self c a)),
      ih (fun d hd => h d (List.mem_cons_of_mem c hd)), List.cons_append]

lemma stripTags_pblock (r : List Char) :
    stripTags ('<' :: 'p' :: '>' :: r) = stripTags r := by
  simp [stripTags, stripTagsAux]

lemma stripTags_pclose (r : List Char) :
    stripTags ('<' :: '/' :: 'p' :: '>' :: r) = stripTags r := by
  simp [stripTags, stripTagsAux]

lemma decodeEntities_cons_ne {c : Char} (r : List Char) (h : ¬ c = '&') :
    decodeEntities (c :: r) = c :: decodeEntities r := by
  rw [decodeEntities.eq_def]
  split <;> simp_all

lemma decodeEntities_no_amp {l : List Char} (h : ∀ c ∈ l, ¬ c = '&') :
    decodeEntities l = l := by
  induction l with
  | nil => rfl
  | cons c r ih =>
    rw [decodeEntities_cons_ne r (h c (List.mem_cons_self c r)),
      ih (fun d hd => h d (List.mem_cons_of_mem c hd))]

lemma escapeL_nomk {l : List Char} (h : ∀ c ∈ l, noMk c) : escapeL l = l := by
  induction l with
  | nil => rfl
  | cons c r ih =>
    obtain ⟨h1, h2, h3⟩ := h c (List.mem_cons_self c r)
    rw [show escapeL (c :: r) = escapeChar c ++ escapeL r from rfl,
      show escapeChar c = [c] by simp [escapeChar, h1, h2, h3],
      ih (fun d hd => h d (List.mem_cons_of_mem c hd))]
    rfl

/-- Tag-stripping the concatenation of the paragraph blocks built by
`importTextContent` from markup-free pieces recovers the concatenation of
the pieces. -/
lemma stripTags_blocks (pieces : List (List Char))
    (h : ∀ l ∈ pieces, ∀ c ∈ l, noMk c) :
    stripTags ((pieces.map
      (fun l => '<' :: 'p' :: '>' :: (escapeL l ++ ('<' :: '/' :: 'p' :: '>' :: [])))).flatten)
      = pieces.flatten := by
  induction pieces with
  | nil => rfl
  | cons a ps ih =>
    have ha := h a (List.mem_cons_self a ps)
    rw [List.map_cons, List.flatten_cons,
      show ('<' :: 'p' :: '>' :: (escapeL a ++ ('<' :: '/' :: 'p' :: '>' :: []))) ++
          (ps.map (fun l => '<' :: 'p' :: '>' ::
            (escapeL l ++ ('<' :: '/' :: 'p' :: '>' :: [])))).flatten =
        '<' :: 'p' :: '>' :: (escapeL a ++ ('<' :: '/' :: 'p' :: '>' ::
          (ps.map (fun l => '<' :: 'p' :: '>' ::
            (escapeL l ++ ('<' :: '/' :: 'p' :: '>' :: [])))).flatten)) by
        simp]
    rw [stripTags_pblock, escapeL_nomk ha,
      stripTags_append_nolt _ (fun c hc => (ha c hc).2.1),
      stripTags_pclose, ih (fun l hl => h l (List.mem_cons_of_mem a hl)),
      List.flatten_cons]

/-! ### Lemmas about the store's list operations -/

namespace NoteManager

lemma modifyFirst_eq_none {f : Note → Note} {id : String} {l : List Note}
    (h : ∀ n ∈ l, n.id ≠ id) : modifyFirst f id l = none := by
  induction l with
  | nil => rfl
  | cons n rest ih =>
    rw [modifyFirst, if_neg (by simpa using h n (List.mem_cons_self n rest)),
      ih (fun m hm => h m (List.mem_cons_of_mem n hm))]
    rfl

lemma modifyFirst_shape {f : Note → Note} {id : String} :
    ∀ {l : List Note} {m : Note} {l' : List Note},
      modifyFirst f id l = some (m, l') →
      ∃ pre n post, l = pre ++ n :: post ∧ n.id = id ∧ m = f n ∧
        l' = pre ++ m :: post := by
  intro l
  induction l with
  | nil => intro m l' h; cases h
  | cons n rest ih =>
    intro m l' h
    by_cases hn : n.id = id
    · rw [modifyFirst, if_pos (by simpa using hn)] at h
      cases h
      exact ⟨[], n, rest, rfl, hn, rfl, rfl⟩
    · rw [modifyFirst, if_neg (by simpa using hn)] at h
      cases hrec : modifyFirst f id rest with
      | none => rw [hrec] at h; cases h
      | some p =>
        rw [hrec] at h
        cases h
        obtain ⟨pre, n', post, hl, hid, hm, hl'⟩ := ih hrec
        exact ⟨n :: pre, n', post, by rw [hl]; rfl, hid, hm, by rw [hl']; rfl⟩

lemma exists_modifyFirst {f : Note → Note} {id : String} {l : List Note}
    (h : ∃ n ∈ l, n.id = id) : ∃ m l', modifyFirst f id l = some (m, l') := by
  induction l with
  | nil => simp at h
  | cons n rest ih =>
    by_cases hn : n.id = id
    · exact ⟨f n, f n :: rest, by rw [modifyFirst, if_pos (by simpa using hn)]⟩
    · obtain ⟨n', hn', hid⟩ := h
      rcases List.mem_cons.mp hn' with h1 | h1
      · subst h1; exact absurd hid hn
      · obtain ⟨m, l', hml⟩ := ih ⟨n', h1, hid⟩
        exact ⟨m, n :: l', by rw [modifyFirst, if_neg (by simpa using hn), hml]; rfl⟩

lemma removeFirst_eq_none {id : String} {l : List Note}
    (h : ∀ n ∈ l, n.id ≠ id) : removeFirst id l = none := by
  induction l with
  | nil => rfl
  | cons n rest ih =>
    rw [removeFirst, if_neg (by simpa using h n (List.mem_cons_self n rest)),
      ih (fun m hm => h m (List.mem_cons_of_mem n hm))]
    rfl

lemma exists_removeFirst {id : String} {l : List Note}
    (h : ∃ n ∈ l, n.id = id) : ∃ l', removeFirst id l = some l' := by
  induction l with
  | nil => simp at h
  | cons n rest ih =>
    by_cases hn : n.id = id
    · exact ⟨rest, by rw [removeFirst, if_pos (by simpa using hn)]⟩
    · obtain ⟨n', hn', hid⟩ := h
      rcases List.mem_cons.mp hn' with h1 | h1
      · subst h1; exact absurd hid hn
      · obtain ⟨l', hl'⟩ := ih ⟨n', h1, hid⟩
        exact ⟨n :: l', by rw [removeFirst, if_neg (by simpa using hn), hl']; rfl⟩

lemma removeFirst_eq_eraseP {id : String} :
    ∀ {l l' : List Note}, removeFirst id l = some l' →
      l' = l.eraseP (fun n => n.id == id) := by
  intro l
  induction l with
  | nil => intro l' h; cases h
  | cons n rest ih =>
    intro l' h
    by_cases hn : n.id = id
    · rw [removeFirst, if_pos (by simpa using hn)] at h
      cases h
      have hb : (n.id == id) = true := by simpa using hn
      rw [List.eraseP_cons, hb]
      rfl
    · rw [removeFirst, if_neg (by simpa using hn)] at h
      cases hrec : removeFirst id rest with
      | none => rw [hrec] at h; cases h
      | some l₀ =>
        rw [hrec] at h
        cases h
        have hb : (n.id == id) = false := by simpa using hn
        rw [List.eraseP_cons, hb, ← ih hrec]
        rfl

lemma removeFirst_shape {id : String} :
    ∀ {l l' : List Note}, removeFirst id l = some l' →
      ∃ pre n post, l = pre ++ n :: post ∧ n.id = id ∧
        (∀ x ∈ pre, x.id ≠ id) ∧ l' = pre ++ post := by
  intro l
  induction l with
  | nil => intro l' h; cases h
  | cons n rest ih =>
    intro l' h
    by_cases hn : n.id = id
    · rw [removeFirst, if_pos (by simpa using hn)] at h
      cases h
      exact ⟨[], n, rest, rfl, hn, by simp, rfl⟩
    · rw [removeFirst, if_neg (by simpa using hn)] at h
      cases hrec : removeFirst id rest with
      | none => rw [hrec] at h; cases h
      | some l₀ =>
        rw [hrec] at h
        cases h
        obtain ⟨pre, n', post, hl, hid, hpre, hl'⟩ := ih hrec
        refine ⟨n :: pre, n', post, by rw [hl]; rfl, hid, ?_, by rw [hl']; rfl⟩
        intro x hx
        rcases List.mem_cons.mp hx with h1 | h1
        · subst h1; exact hn
        · exact hpre x h1

end NoteManager

/-! ### Claims -/

/-- C10: for an id not present in the collection, `update`, `updateTitle`,
`delete` and `setActive` return their not-found sentinel (`none` / `false`)
and leave the entire store state — collection, active id and persisted
storage — unchanged, performing no persistence write. -/
theorem claim10_notfound_noop (s : StoreState) (id t : String)
    (u : NoteManager.NoteUpdates) (now : Nat)
    (h : ∀ n ∈ s.notes, n.id ≠ id) :
    NoteManager.updateNote s id u now = (none, s) ∧
    NoteManager.updateNoteTitle s id t now = (none, s) ∧
    NoteManager.deleteNote s id = (false, s) ∧
    NoteManager.setActiveNote s id = (none, s) := by
  have hfind : NoteManager.getNoteById s id = none := by
    rw [NoteManager.getNoteById, List.find?_eq_none]
    intro n hn
    simpa using h n hn
  refine ⟨?_, ?_, ?_, ?_⟩
  · rw [NoteManager.updateNote, NoteManager.modifyFirst_eq_none h]
  · rw [NoteManager.updateNoteTitle, NoteManager.modifyFirst_eq_none h]
  · rw [NoteManager.deleteNote, NoteManager.removeFirst_eq_none h]
  · rw [NoteManager.setActiveNote, hfind]

/-- C10 witness: a concrete run of the four operations on an id absent from
the store. -/
theorem claim10_witness :
    NoteManager.updateNote emptyStore "x" ⟨none, none⟩ 0 = (none, emptyStore) ∧
    NoteManager.updateNoteTitle emptyStore "x" "t" 0 = (none, emptyStore) ∧
    NoteManager.deleteNote emptyStore "x" = (false, emptyStore) ∧
    NoteManager.setActiveNote emptyStore "x" = (none, emptyStore) :=
  claim10_notfound_noop emptyStore "x" "t" ⟨none, none⟩ 0 (by decide)

/-- C5: deleting an existing id removes (the first occurrence of) that note
and returns `true`; the active pointer is reassigned to the new first
note's id exactly when the deleted note was the active one (cleared when
the collection empties); the result is persisted; deleting the only note of
an invariant-satisfying store empties the collection and unsets the active
id. -/
theorem claim5_delete (s : StoreState) (id : String)
    (h : ∃ n ∈ s.notes, n.id = id) :
    (NoteManager.deleteNote s id).1 = true ∧
    (NoteManager.deleteNote s id).2.notes = s.notes.eraseP (fun n => n.id == id) ∧
    (NoteManager.deleteNote s id).2.activeNoteId =
      (if s.activeNoteId = some id then
        ((NoteManager.deleteNote s id).2.notes.head?).map Note.id
      else s.activeNoteId) ∧
    (NoteManager.deleteNote s id).2.storage =
      ⟨some (NoteManager.deleteNote s id).2.notes,
        ((NoteManager.deleteNote s id).2.activeNoteId).getD ""⟩ ∧
    (s.notes.length = 1 → StoreInv s →
      (NoteManager.deleteNote s id).2.notes = [] ∧
      (NoteManager.deleteNote s id).2.activeNoteId = none) := by
  obtain ⟨l', hl'⟩ := NoteManager.exists_removeFirst h
  have hnil : s.notes.length = 1 → l' = [] := by
    intro hlen
    obtain ⟨pre, n, post, hl, _, _, hl2⟩ := NoteManager.removeFirst_shape hl'
    rw [hl] at hlen
    simp [List.length_append] at hlen
    have hpre : pre = [] := List.length_eq_zero.mp (by omega)
    have hpost : post = [] := List.length_eq_zero.mp (by omega)
    rw [hl2, hpre, hpost]
    rfl
  simp only [NoteManager.deleteNote, hl']
  refine ⟨by trivial, NoteManager.removeFirst_eq_eraseP hl', ?_, by trivial, ?_⟩
  · by_cases ha : s.activeNoteId = some id
    · simp only [NoteManager.saveNotesToStorage, if_pos ha]
      cases l' <;> rfl
    · simp [NoteManager.saveNotesToStorage, if_neg ha]
  · intro hlen hinv
    have hl0 : l' = [] := hnil hlen
    subst hl0
    refine ⟨rfl, ?_⟩
    cases hac : s.activeNoteId with
    | none => simp [NoteManager.saveNotesToStorage, hac]
    | some a =>
      obtain ⟨n, hn, hna⟩ := hinv a hac
      cases hsn : s.notes with
      | nil =>
        rw [hsn] at hn
        cases hn
      | cons m rest =>
        have hrest : rest = [] := by
          rw [hsn] at hlen
          simpa using hlen
        subst hrest
        rw [hsn] at hn
        have hnm : n = m := by simpa using hn
        obtain ⟨n₀, hn₀, hid₀⟩ := h
        rw [hsn] at hn₀
        have hn₀m : n₀ = m := by simpa using hn₀
        have haid : a = id := by
          rw [← hna, ← hid₀, hnm, hn₀m]
        have hcond : s.activeNoteId = some id := by rw [hac, haid]
        simp [NoteManager.saveNotesToStorage, hcond]
        exact haid

/-- C5 witness: deleting the only (active) note of a one-note store. -/
theorem claim5_witness :
    (NoteManager.deleteNote ⟨[⟨"A", "t", "c", 0, 0⟩], some "A", ⟨none, ""⟩⟩ "A").1 = true ∧
    (NoteManager.deleteNote ⟨[⟨"A", "t", "c", 0, 0⟩], some "A", ⟨none, ""⟩⟩ "A").2.notes =
      [⟨"A", "t", "c", 0, 0⟩].eraseP (fun n => n.id == "A") ∧
    (NoteManager.deleteNote ⟨[⟨"A", "t", "c", 0, 0⟩], some "A", ⟨none, ""⟩⟩ "A").2.activeNoteId =
      (if (some "A" : Option String) = some "A" then
        ((NoteManager.deleteNote ⟨[⟨"A", "t", "c", 0, 0⟩], some "A", ⟨none, ""⟩⟩
          "A").2.notes.head?).map Note.id
      else some "A") ∧
    (NoteManager.deleteNote ⟨[⟨"A", "t", "c", 0, 0⟩], some "A", ⟨none, ""⟩⟩ "A").2.storage =
      ⟨some (NoteManager.deleteNote ⟨[⟨"A", "t", "c", 0, 0⟩], some "A", ⟨none, ""⟩⟩ "A").2.notes,
        ((NoteManager.deleteNote ⟨[⟨"A", "t", "c", 0, 0⟩], some "A", ⟨none, ""⟩⟩
          "A").2.activeNoteId).getD ""⟩ ∧
    (([⟨"A", "t", "c", 0, 0⟩] : List Note).length = 1 →
      StoreInv ⟨[⟨"A", "t", "c", 0, 0⟩], some "A", ⟨none, ""⟩⟩ →
      (NoteManager.deleteNote ⟨[⟨"A", "t", "c", 0, 0⟩], some "A", ⟨none, ""⟩⟩ "A").2.notes = [] ∧
      (NoteManager.deleteNote ⟨[⟨"A", "t", "c", 0, 0⟩], some "A", ⟨none, ""⟩⟩
        "A").2.activeNoteId = none) :=
  claim5_delete ⟨[⟨"A", "t", "c", 0, 0⟩], some "A", ⟨none, ""⟩⟩ "A"
    ⟨⟨"A", "t", "c", 0, 0⟩, by decide, by decide⟩

lemma StoreInv_createNote (s : StoreState) (now : Nat) (rand t c : String) :
    StoreInv (NoteManager.createNote s now rand t c).2 := by
  intro a ha
  have ha' : NoteManager.generateId now rand = a := by
    simpa [NoteManager.createNote, NoteManager.saveNotesToStorage] using ha
  exact ⟨⟨NoteManager.generateId now rand, t, c, now, now⟩,
    List.mem_cons_self _ _, ha'⟩

lemma modifyFirst_preserves_exists {f : Note → Note} {id : String}
    {l l' : List Note} {m : Note} (hf : ∀ x, (f x).id = x.id)
    (hm : NoteManager.modifyFirst f id l = some (m, l')) :
    ∀ a, (∃ n ∈ l, n.id = a) → ∃ n ∈ l', n.id = a := by
  obtain ⟨pre, n', post, hl, hid, hfm, hl'⟩ := NoteManager.modifyFirst_shape hm
  intro a ⟨n, hn, hna⟩
  rw [hl] at hn
  subst hl'
  rcases List.mem_append.mp hn with h1 | h1
  · exact ⟨n, List.mem_append_left _ h1, hna⟩
  · rcases List.mem_cons.mp h1 with h2 | h2
    · subst h2
      refine ⟨m, List.mem_append_right _ (List.mem_cons_self _ _), ?_⟩
      rw [hfm, hf n, hna]
    · exact ⟨n, List.mem_append_right _ (List.mem_cons_of_mem _ h2), hna⟩

lemma StoreInv_updateNote {s : StoreState} (id : String) (u : NoteManager.NoteUpdates)
    (now : Nat) (h : StoreInv s) : StoreInv (NoteManager.updateNote s id u now).2 := by
  cases hm : NoteManager.modifyFirst (NoteManager.applyUpdates u now) id s.notes with
  | none =>
    simpa only [NoteManager.updateNote, hm] using h
  | some p =>
    obtain ⟨m, l'⟩ := p
    simp only [NoteManager.updateNote, hm]
    intro a ha
    have ha' : s.activeNoteId = some a := by
      simpa [NoteManager.saveNotesToStorage] using ha
    exact modifyFirst_preserves_exists (f := NoteManager.applyUpdates u now)
      (fun x => rfl) hm a (h a ha')

lemma StoreInv_updateNoteTitle {s : StoreState} (id t : String) (now : Nat)
    (h : StoreInv s) : StoreInv (NoteManager.updateNoteTitle s id t now).2 := by
  cases hm : NoteManager.modifyFirst
      (fun n =>
        { n with
          title := if trimStr t = "" then "Untitled Note" else trimStr t
          updatedAt := now }) id s.notes with
  | none =>
    simpa only [NoteManager.updateNoteTitle, hm] using h
  | some p =>
    obtain ⟨m, l'⟩ := p
    simp only [NoteManager.updateNoteTitle, hm]
    intro a ha
    have ha' : s.activeNoteId = some a := by
      simpa [NoteManager.saveNotesToStorage] using ha
    exact modifyFirst_preserves_exists
      (f := fun n =>
        { n with
          title := if trimStr t = "" then "Untitled Note" else trimStr t
          updatedAt := now })
      (fun x => rfl) hm a (h a ha')

lemma StoreInv_updateNoteTitleFromContent {s : StoreState} (id c : String) (now : Nat)
    (h : StoreInv s) : StoreInv (NoteManager.updateNoteTitleFromContent s id c now) := by
  show StoreInv
    (if NoteManager.extractFirstLineAsTitle c ≠ "" then
      (NoteManager.updateNote s id
        ⟨some (strTake (NoteManager.extractFirstLineAsTitle c) 50 ++
          (if 50 < strLength (NoteManager.extractFirstLineAsTitle c) then "..." else "")),
          some c⟩ now).2
    else (NoteManager.updateNote s id ⟨none, some c⟩ now).2)
  by_cases hfl : NoteManager.extractFirstLineAsTitle c ≠ ""
  · rw [if_pos hfl]
    exact StoreInv_updateNote id _ now h
  · rw [if_neg hfl]
    exact StoreInv_updateNote id _ now h

lemma StoreInv_deleteNote {s : StoreState} (id : String) (h : StoreInv s) :
    StoreInv (NoteManager.deleteNote s id).2 := by
  cases hm : NoteManager.removeFirst id s.notes with
  | none =>
    simpa only [NoteManager.deleteNote, hm] using h
  | some l' =>
    simp only [NoteManager.deleteNote, hm]
    intro a ha
    simp only [NoteManager.saveNotesToStorage] at ha
    by_cases hc : s.activeNoteId = some id
    · rw [if_pos hc] at ha
      cases l' with
      | nil => simp at ha
      | cons n rest =>
        refine ⟨n, List.mem_cons_self _ _, ?_⟩
        simpa using ha
    · rw [if_neg hc] at ha
      obtain ⟨n, hn, hna⟩ := h a ha
      obtain ⟨pre, n', post, hl, hid, hpre, hl'⟩ := NoteManager.removeFirst_shape hm
      have hne : n ≠ n' := by
        intro hcontra
        rw [hcontra, hid] at hna
        apply hc
        rw [hna]
        exact ha
      rw [hl] at hn
      subst hl'
      rcases List.mem_append.mp hn with h1 | h1
      · exact ⟨n, List.mem_append_left _ h1, hna⟩
      · rcases List.mem_cons.mp h1 with h2 | h2
        · exact absurd h2 hne
        · exact ⟨n, List.mem_append_right _ h2, hna⟩

lemma StoreInv_setActiveNote {s : StoreState} (id : String) (h : StoreInv s) :
    StoreInv (NoteManager.setActiveNote s id).2 := by
  cases hm : NoteManager.getNoteById s id with
  | none =>
    simpa only [NoteManager.setActiveNote, hm] using h
  | some n =>
    simp only [NoteManager.setActiveNote, hm]
    intro a ha
    have ha' : id = a := by simpa using ha
    subst ha'
    exact ⟨n, List.mem_of_find?_eq_some hm, by simpa using List.find?_some hm⟩

lemma StoreInv_importTextContent (s : StoreState) (c fn : String) (now : Nat)
    (rand : String) : StoreInv (NoteManager.importTextContent s c fn now rand).2 := by
  unfold NoteManager.importTextContent
  exact StoreInv_createNote s now rand _ _

lemma StoreInv_loadNotesFromStorage (storage : Storage) (corrupt : Bool) (now : Nat)
    (rand : String) :
    StoreInv (NoteManager.loadNotesFromStorage storage corrupt now rand) := by
  unfold NoteManager.loadNotesFromStorage
  by_cases hc : corrupt
  · rw [if_pos hc]
    exact StoreInv_createNote _ now rand _ _
  · rw [if_neg hc]
    show StoreInv
      (if storage.storedNotes.getD [] = [] then
        (NoteManager.createNote
          ⟨storage.storedNotes.getD [],
            if storage.storedActiveId ≠ "" ∧
                (NoteManager.getNoteById ⟨storage.storedNotes.getD [], none, storage⟩
                  storage.storedActiveId).isSome then
              some storage.storedActiveId
            else
              match storage.storedNotes.getD [] with
              | [] => none
              | n :: _ => some n.id,
            storage⟩ now rand "Welcome to takenote"
          "<p>Welcome to takenote! This is your first note.</p><p>You can:</p><ul><li>Format text with the toolbar</li><li>Create new notes</li><li>Upload and download files</li><li>And much more!</li></ul>").2
      else
        ⟨storage.storedNotes.getD [],
          if storage.storedActiveId ≠ "" ∧
              (NoteManager.getNoteById ⟨storage.storedNotes.getD [], none, storage⟩
                storage.storedActiveId).isSome then
            some storage.storedActiveId
          else
            match storage.storedNotes.getD [] with
            | [] => none
            | n :: _ => some n.id,
          storage⟩)
    by_cases hn : storage.storedNotes.getD [] = []
    · rw [if_pos hn]
      exact StoreInv_createNote _ now rand _ _
    · rw [if_neg hn]
      intro a ha
      have ha' :
          (if storage.storedActiveId ≠ "" ∧
              (NoteManager.getNoteById ⟨storage.storedNotes.getD [], none, storage⟩
                storage.storedActiveId).isSome then
            some storage.storedActiveId
          else
            match storage.storedNotes.getD [] with
            | [] => none
            | n :: _ => some n.id) = some a := ha
      show ∃ n ∈ storage.storedNotes.getD [], n.id = a
      by_cases hv : storage.storedActiveId ≠ "" ∧
          (NoteManager.getNoteById ⟨storage.storedNotes.getD [], none, storage⟩
            storage.storedActiveId).isSome
      · rw [if_pos hv] at ha'
        have haid : storage.storedActiveId = a := by simpa using ha'
        subst haid
        obtain ⟨n, hmem, hp⟩ :
            ∃ x ∈ storage.storedNotes.getD [], x.id = storage.storedActiveId := by
          simpa [NoteManager.getNoteById] using hv.2
        exact ⟨n, hmem, hp⟩
      · rw [if_neg hv] at ha'
        cases hl : storage.storedNotes.getD [] with
        | nil => exact absurd hl hn
        | cons m rest =>
          rw [hl] at ha'
          have hma : m.id = a := by simpa using ha'
          exact ⟨m, List.mem_cons_self m rest, hma⟩

/-- C6: after each store operation (`createNote`, `update`, `updateTitle`,
`updateTitleFromContent`, `delete`, `setActive`, `importText`, and the
initial load from storage) the active id, when set, references a note
present in the collection.  (At most one note is active by construction:
the pointer is a single optional id.) -/
theorem claim6_active_valid (s : StoreState) (id t c fn : String)
    (u : NoteManager.NoteUpdates) (now : Nat) (rand : String)
    (storage : Storage) (corrupt : Bool) (h : StoreInv s) :
    StoreInv (NoteManager.createNote s now rand t c).2 ∧
    StoreInv (NoteManager.updateNote s id u now).2 ∧
    StoreInv (NoteManager.updateNoteTitle s id t now).2 ∧
    StoreInv (NoteManager.updateNoteTitleFromContent s id c now) ∧
    StoreInv (NoteManager.deleteNote s id).2 ∧
    StoreInv (NoteManager.setActiveNote s id).2 ∧
    StoreInv (NoteManager.importTextContent s c fn now rand).2 ∧
    StoreInv (NoteManager.loadNotesFromStorage storage corrupt now rand) :=
  ⟨StoreInv_createNote s now rand t c,
    StoreInv_updateNote id u now h,
    StoreInv_updateNoteTitle id t now h,
    StoreInv_updateNoteTitleFromContent id c now h,
    StoreInv_deleteNote id h,
    StoreInv_setActiveNote id h,
    StoreInv_importTextContent s c fn now rand,
    StoreInv_loadNotesFromStorage storage corrupt now rand⟩

/-- C6 witness: a concrete run of all eight operations from the empty
store. -/
theorem claim6_witness :
    StoreInv (NoteManager.createNote emptyStore 0 "r" "t" "c").2 ∧
    StoreInv (NoteManager.updateNote emptyStore "x" ⟨none, none⟩ 0).2 ∧
    StoreInv (NoteManager.updateNoteTitle emptyStore "x" "t" 0).2 ∧
    StoreInv (NoteManager.updateNoteTitleFromContent emptyStore "x" "c" 0) ∧
    StoreInv (NoteManager.deleteNote emptyStore "x").2 ∧
    StoreInv (NoteManager.setActiveNote emptyStore "x").2 ∧
    StoreInv (NoteManager.importTextContent emptyStore "c" "f.txt" 0 "r").2 ∧
    StoreInv (NoteManager.loadNotesFromStorage ⟨none, ""⟩ false 0 "r") :=
  claim6_active_valid emptyStore "x" "t" "c" "f.txt" ⟨none, none⟩ 0 "r" ⟨none, ""⟩ false
    (fun _ ha => nomatch ha)

/-- C1 counterexample: `createNote` called with an explicit empty-string
title stores the empty title verbatim (JavaScript default parameters do not
fire on an explicit `''`), so the resulting collection contains a note with
an empty title; likewise `importText` with filename `".txt"` (whose stem is
empty) produces an empty title. -/
theorem claim1_counterexample :
    (NoteManager.createNote emptyStore 0 "r" "" "").1.title = "" ∧
    (NoteManager.createNote emptyStore 0 "r" "" "").1 ∈
      (NoteManager.createNote emptyStore 0 "r" "" "").2.notes ∧
    (NoteManager.importTextContent emptyStore "hello" ".txt" 0 "r").1.title = "" :=
  ⟨rfl, List.mem_cons_self _ _, by decide⟩

lemma strdata_append (a b : String) : (a ++ b).data = a.data ++ b.data := by
  cases a
  cases b
  rfl

lemma string_append_cancel {a b c : String} (h : a ++ b = a ++ c) : b = c := by
  have hd := congrArg String.data h
  rw [strdata_append, strdata_append] at hd
  have hbc := List.append_cancel_left hd
  cases b
  cases c
  exact congrArg String.mk hbc

/-- `generateId` is injective in the clock/suffix material after the fixed
`note_` prefix. -/
lemma generateId_inj {n₁ n₂ : Nat} {r₁ r₂ : String}
    (h : NoteManager.generateId n₁ r₁ = NoteManager.generateId n₂ r₂) :
    Nat.repr n₁ ++ "_" ++ r₁ = Nat.repr n₂ ++ "_" ++ r₂ := by
  unfold NoteManager.generateId at h
  have h' : "note_" ++ (Nat.repr n₁ ++ "_" ++ r₁) = "note_" ++ (Nat.repr n₂ ++ "_" ++ r₂) := by
    rw [← String.append_assoc, ← String.append_assoc, ← String.append_assoc,
      ← String.append_assoc]
    exact h
  exact string_append_cancel h'

/-- C4 counterexample: two `createNote` calls that observe the same clock
value and the same random suffix produce identical ids — the id is a pure
function of `Date.now()` and `Math.random()`, so freshness is not
guaranteed by the code itself; the earlier note (with the same id) is still
in the collection. -/
theorem claim4_counterexample :
    (NoteManager.createNote (NoteManager.createNote emptyStore 5 "abc").2 5 "abc").1.id =
      (NoteManager.createNote emptyStore 5 "abc").1.id ∧
    (NoteManager.createNote emptyStore 5 "abc").1 ∈
      (NoteManager.createNote (NoteManager.createNote emptyStore 5 "abc").2 5 "abc").2.notes :=
  ⟨rfl, by decide⟩

/-- C4 (amended): `createNote` never fails, stamps `createdAt` equal to
`updatedAt`, inserts the new note at the front, makes it active and
persists; its id differs from any other generated id provided the
clock/random material supplied by the environment differs (the id is
`"note_" ++ timestamp ++ "_" ++ randomSuffix`, injective in that
material). -/
theorem claim4_amended (s : StoreState) (n₁ n₂ : Nat) (r₁ r₂ t c : String)
    (h : Nat.repr n₁ ++ "_" ++ r₁ ≠ Nat.repr n₂ ++ "_" ++ r₂) :
    (NoteManager.createNote s n₁ r₁ t c).1.id ≠ NoteManager.generateId n₂ r₂ ∧
    (NoteManager.createNote s n₁ r₁ t c).1.createdAt =
      (NoteManager.createNote s n₁ r₁ t c).1.updatedAt ∧
    (NoteManager.createNote s n₁ r₁ t c).2.notes =
      (NoteManager.createNote s n₁ r₁ t c).1 :: s.notes ∧
    (NoteManager.createNote s n₁ r₁ t c).2.activeNoteId =
      some (NoteManager.createNote s n₁ r₁ t c).1.id ∧
    (NoteManager.createNote s n₁ r₁ t c).2.storage =
      ⟨some (NoteManager.createNote s n₁ r₁ t c).2.notes,
        (NoteManager.createNote s n₁ r₁ t c).1.id⟩ := by
  refine ⟨?_, rfl, rfl, rfl, rfl⟩
  intro hcontra
  exact h (generateId_inj hcontra)

/-- C4 witness: concrete distinct clock values. -/
theorem claim4_witness :
    (NoteManager.createNote emptyStore 1 "a" "t" "c").1.id ≠ NoteManager.generateId 2 "a" ∧
    (NoteManager.createNote emptyStore 1 "a" "t" "c").1.createdAt =
      (NoteManager.createNote emptyStore 1 "a" "t" "c").1.updatedAt ∧
    (NoteManager.createNote emptyStore 1 "a" "t" "c").2.notes =
      (NoteManager.createNote emptyStore 1 "a" "t" "c").1 :: emptyStore.notes ∧
    (NoteManager.createNote emptyStore 1 "a" "t" "c").2.activeNoteId =
      some (NoteManager.createNote emptyStore 1 "a" "t" "c").1.id ∧
    (NoteManager.createNote emptyStore 1 "a" "t" "c").2.storage =
      ⟨some (NoteManager.createNote emptyStore 1 "a" "t" "c").2.notes,
        (NoteManager.createNote emptyStore 1 "a" "t" "c").1.id⟩ :=
  claim4_amended emptyStore 1 2 "a" "a" "t" "c" (by decide)

lemma updateNoteTitleFromContent_eq (s : StoreState) (id content : String) (now : Nat) :
    NoteManager.updateNoteTitleFromContent s id content now =
      (if NoteManager.extractFirstLineAsTitle content ≠ "" then
        (NoteManager.updateNote s id
          ⟨some (strTake (NoteManager.extractFirstLineAsTitle content) 50 ++
            (if 50 < strLength (NoteManager.extractFirstLineAsTitle content) then "..." else "")),
            some content⟩ now).2
      else (NoteManager.updateNote s id ⟨none, some content⟩ now).2) := rfl

lemma firstNonBlankLine_ne_nil {t l : List Char} (h : firstNonBlankLine t = some l) :
    l ≠ [] := by
  have := List.find?_some h
  simpa using this

lemma string_mk_eq_empty {l : List Char} (h : (⟨l⟩ : String) = "") : l = [] := by
  have := congrArg String.data h
  simpa using this

/-- C7: for an existing note id, `updateTitleFromContent` stores the content
verbatim and sets the title to the first non-blank line of the tag-stripped
content, truncated to 50 characters with a trailing `"..."` exactly when
that line is longer than 50 characters; when no such line exists the title
is left unchanged (only the content is updated). -/
theorem claim7_titleFromContent (s : StoreState) (id content : String) (now : Nat)
    (h : ∃ n ∈ s.notes, n.id = id) :
    ∃ old ∈ s.notes, old.id = id ∧
      ∃ n' ∈ (NoteManager.updateNoteTitleFromContent s id content now).notes,
        n'.id = old.id ∧ n'.content = content ∧ n'.createdAt = old.createdAt ∧
        n'.title =
          (match firstNonBlankLine (stripTags content.data) with
          | some fl =>
            strTake ⟨fl⟩ 50 ++ (if 50 < strLength (⟨fl⟩ : String) then "..." else "")
          | none => old.title) := by
  have hcases := extractFirstLineAsTitle_eq content
  rw [updateNoteTitleFromContent_eq]
  by_cases hfl : NoteManager.extractFirstLineAsTitle content = ""
  · have hnone : firstNonBlankLine (stripTags content.data) = none := by
      cases hfb : firstNonBlankLine (stripTags content.data) with
      | none => rfl
      | some l =>
        rw [hfb] at hcases
        rw [hfl] at hcases
        exact absurd (string_mk_eq_empty hcases.symm) (firstNonBlankLine_ne_nil hfb)
    rw [if_neg (by simpa using hfl), hnone]
    obtain ⟨m, l', hm⟩ :=
      NoteManager.exists_modifyFirst (f := NoteManager.applyUpdates ⟨none, some content⟩ now) h
    obtain ⟨pre, n', post, hl, hid, hfm, hl'⟩ := NoteManager.modifyFirst_shape hm
    refine ⟨n', by rw [hl]; exact List.mem_append_right _ (List.mem_cons_self _ _), hid, m, ?_,
      by rw [hfm]; exact hid ▸ rfl, by rw [hfm]; rfl, by rw [hfm]; rfl, by rw [hfm]; rfl⟩
    simp only [NoteManager.updateNote, hm]
    rw [show (NoteManager.saveNotesToStorage { s with notes := l' }).notes = l' from rfl, hl']
    exact List.mem_append_right _ (List.mem_cons_self _ _)
  · have hsome : ∃ fl, firstNonBlankLine (stripTags content.data) = some fl ∧
        (⟨fl⟩ : String) = NoteManager.extractFirstLineAsTitle content := by
      cases hfb : firstNonBlankLine (stripTags content.data) with
      | none =>
        rw [hfb] at hcases
        simp at hcases
        exact absurd hcases hfl
      | some l =>
        refine ⟨l, rfl, ?_⟩
        rw [hcases, hfb]
        rfl
    obtain ⟨fl, hfb, hflv⟩ := hsome
    rw [if_pos (by simpa using hfl), hfb]
    obtain ⟨m, l', hm⟩ :=
      NoteManager.exists_modifyFirst
        (f := NoteManager.applyUpdates
          ⟨some (strTake (NoteManager.extractFirstLineAsTitle content) 50 ++
            (if 50 < strLength (NoteManager.extractFirstLineAsTitle content) then "..." else "")),
            some content⟩ now) h
    obtain ⟨pre, n', post, hl, hid, hfm, hl'⟩ := NoteManager.modifyFirst_shape hm
    refine ⟨n', by rw [hl]; exact List.mem_append_right _ (List.mem_cons_self _ _), hid, m, ?_,
      by rw [hfm]; exact hid ▸ rfl, by rw [hfm]; rfl, by rw [hfm]; rfl, ?_⟩
    · simp only [NoteManager.updateNote, hm]
      rw [show (NoteManager.saveNotesToStorage { s with notes := l' }).notes = l' from rfl, hl']
      exact List.mem_append_right _ (List.mem_cons_self _ _)
    · rw [hfm]
      show (strTake (NoteManager.extractFirstLineAsTitle content) 50 ++
        (if 50 < strLength (NoteManager.extractFirstLineAsTitle content) then "..." else "")) =
        strTake ⟨fl⟩ 50 ++ (if 50 < strLength (⟨fl⟩ : String) then "..." else "")
      rw [hflv]

/-- C7 witness: deriving the title from `<p>Hello World</p>` on a concrete
store. -/
theorem claim7_witness :
    ∃ old ∈ (⟨[⟨"A", "t", "c", 0, 0⟩], some "A", ⟨none, ""⟩⟩ : StoreState).notes,
      old.id = "A" ∧
      ∃ n' ∈ (NoteManager.updateNoteTitleFromContent
        ⟨[⟨"A", "t", "c", 0, 0⟩], some "A", ⟨none, ""⟩⟩ "A" "<p>Hello World</p>" 1).notes,
        n'.id = old.id ∧ n'.content = "<p>Hello World</p>" ∧ n'.createdAt = old.createdAt ∧
        n'.title =
          (match firstNonBlankLine (stripTags "<p>Hello World</p>".data) with
          | some fl =>
            strTake ⟨fl⟩ 50 ++ (if 50 < strLength (⟨fl⟩ : String) then "..." else "")
          | none => old.title) :=
  claim7_titleFromContent ⟨[⟨"A", "t", "c", 0, 0⟩], some "A", ⟨none, ""⟩⟩ "A"
    "<p>Hello World</p>" 1 ⟨⟨"A", "t", "c", 0, 0⟩, by decide, rfl⟩

lemma setActiveNote_notes (s : StoreState) (id : String) :
    (NoteManager.setActiveNote s id).2.notes = s.notes := by
  cases hm : NoteManager.getNoteById s id <;> simp [NoteManager.setActiveNote, hm]

lemma updateNoteTitleFromContent_stores {s : StoreState} {id : String}
    (content : String) (now : Nat) (h : ∃ n ∈ s.notes, n.id = id) :
    ∃ n' ∈ (NoteManager.updateNoteTitleFromContent s id content now).notes,
      n'.id = id ∧ n'.content = content := by
  rw [updateNoteTitleFromContent_eq]
  by_cases hfl : NoteManager.extractFirstLineAsTitle content ≠ ""
  · rw [if_pos hfl]
    obtain ⟨m, l', hm⟩ :=
      NoteManager.exists_modifyFirst
        (f := NoteManager.applyUpdates
          ⟨some (strTake (NoteManager.extractFirstLineAsTitle content) 50 ++
            (if 50 < strLength (NoteManager.extractFirstLineAsTitle content) then "..." else "")),
            some content⟩ now) h
    obtain ⟨pre, n', post, hl, hid, hfm, hl'⟩ := NoteManager.modifyFirst_shape hm
    refine ⟨m, ?_, by rw [hfm]; exact hid ▸ rfl, by rw [hfm]; rfl⟩
    simp only [NoteManager.updateNote, hm]
    rw [show (NoteManager.saveNotesToStorage { s with notes := l' }).notes = l' from rfl, hl']
    exact List.mem_append_right _ (List.mem_cons_self _ _)
  · rw [if_neg hfl]
    obtain ⟨m, l', hm⟩ :=
      NoteManager.exists_modifyFirst (f := NoteManager.applyUpdates ⟨none, some content⟩ now) h
    obtain ⟨pre, n', post, hl, hid, hfm, hl'⟩ := NoteManager.modifyFirst_shape hm
    refine ⟨m, ?_, by rw [hfm]; exact hid ▸ rfl, by rw [hfm]; rfl⟩
    simp only [NoteManager.updateNote, hm]
    rw [show (NoteManager.saveNotesToStorage { s with notes := l' }).notes = l' from rfl, hl']
    exact List.mem_append_right _ (List.mem_cons_self _ _)

lemma find?_removeFirst_ne {id a : String} :
    ∀ {l l' : List Note}, NoteManager.removeFirst id l = some l' → a ≠ id →
      l'.find? (fun n => n.id == a) = l.find? (fun n => n.id == a) := by
  intro l
  induction l with
  | nil => intro l' h _; cases h
  | cons n rest ih =>
    intro l' h hne
    by_cases hn : n.id = id
    · rw [NoteManager.removeFirst, if_pos (by simpa using hn)] at h
      cases h
      rw [List.find?_cons_of_neg _ (by simp [hn, Ne.symm hne])]
    · rw [NoteManager.removeFirst, if_neg (by simpa using hn)] at h
      cases hrec : NoteManager.removeFirst id rest with
      | none => rw [hrec] at h; cases h
      | some l₀ =>
        rw [hrec] at h
        cases h
        by_cases hp : n.id = a
        · rw [List.find?_cons_of_pos _ (by simpa using hp),
            List.find?_cons_of_pos _ (by simpa using hp)]
        · rw [List.find?_cons_of_neg _ (by simpa using hp),
            List.find?_cons_of_neg _ (by simpa using hp)]
          exact ih hrec hne

/-- C2 counterexample: with note `A` open in the editor carrying an unsaved
edit (`"edited"`, while `A`'s stored content is `"old"`), a delete-note
request for the other note `B` completes without persisting `A`'s editor
content — the coordinator's delete path never flushes pending edits. -/
theorem claim2_counterexample :
    (NoteManager.getNoteById
      (TakenoteApp.deleteNote
        ⟨⟨[⟨"A", "tA", "old", 0, 0⟩, ⟨"B", "tB", "bc", 0, 0⟩], some "A", ⟨none, ""⟩⟩,
          some "A", "edited"⟩ "B" 1 "r").store "A").map Note.content = some "old" ∧
    (TakenoteApp.deleteNote
      ⟨⟨[⟨"A", "tA", "old", 0, 0⟩, ⟨"B", "tB", "bc", 0, 0⟩], some "A", ⟨none, ""⟩⟩,
        some "A", "edited"⟩ "B" 1 "r").editorContent = "edited" ∧
    ("old" : String) ≠ "edited" :=
  ⟨by decide, by decide, by decide⟩

/-- C2 (amended): a switch-note request away from an open note with pending
edits flushes the open note's editor content into the store (via
`updateTitleFromContent`) before the target note's content reaches the
editor, so the previously open note's persisted content equals the
pre-switch editor content and the editor ends up with the target's stored
content; a delete-note request, by contrast, performs no flush: deleting a
note other than the open one leaves the open note's stored record and the
editor content exactly as they were. -/
theorem claim2_amended (app : AppState) (a b : String) (now : Nat) (rand : String)
    (ha : app.currentNoteId = some a) (ha0 : a ≠ "") (hne : a ≠ b)
    (haEx : ∃ n ∈ app.store.notes, n.id = a) :
    (∀ nb, NoteManager.getNoteById app.store b = some nb →
      (∃ n ∈ (TakenoteApp.switchToNote app b now).store.notes,
        n.id = a ∧ n.content = app.editorContent) ∧
      (TakenoteApp.switchToNote app b now).editorContent = nb.content ∧
      (TakenoteApp.switchToNote app b now).currentNoteId = some b) ∧
    NoteManager.getNoteById (TakenoteApp.deleteNote app b now rand).store a =
      NoteManager.getNoteById app.store a ∧
    (TakenoteApp.deleteNote app b now rand).editorContent = app.editorContent := by
  refine ⟨?_, ?_⟩
  · intro nb hnb
    have hsw : TakenoteApp.switchToNote app b now =
        ⟨(NoteManager.setActiveNote
            (NoteManager.updateNoteTitleFromContent app.store a app.editorContent now) b).2,
          some b, nb.content⟩ := by
      rw [TakenoteApp.switchToNote]
      rw [hnb]
      rw [show (match app.currentNoteId with
          | none => app
          | some cur =>
            if cur = "" ∨ cur = b then app else TakenoteApp.saveCurrentNote app now) =
          TakenoteApp.saveCurrentNote app now from by
        rw [ha]
        exact if_neg (by simp [ha0, hne])]
      rw [show TakenoteApp.saveCurrentNote app now =
          { app with store :=
              NoteManager.updateNoteTitleFromContent app.store a app.editorContent now } from by
        rw [TakenoteApp.saveCurrentNote, ha]
        exact if_neg ha0]
    rw [hsw]
    refine ⟨?_, rfl, rfl⟩
    rw [show (⟨(NoteManager.setActiveNote
        (NoteManager.updateNoteTitleFromContent app.store a app.editorContent now) b).2,
        some b, nb.content⟩ : AppState).store =
        (NoteManager.setActiveNote
          (NoteManager.updateNoteTitleFromContent app.store a app.editorContent now) b).2
      from rfl, setActiveNote_notes]
    obtain ⟨n', hmem, hid, hcont⟩ :=
      updateNoteTitleFromContent_stores app.editorContent now haEx
    exact ⟨n', hmem, hid, hcont⟩
  · cases hrm : NoteManager.removeFirst b app.store.notes with
    | none =>
      have hdel : TakenoteApp.deleteNote app b now rand = app := by
        rw [TakenoteApp.deleteNote]
        simp only [NoteManager.deleteNote, hrm]
        rfl
      rw [hdel]
      exact ⟨rfl, rfl⟩
    | some l' =>
      have hdel : TakenoteApp.deleteNote app b now rand =
          ⟨(NoteManager.deleteNote app.store b).2, app.currentNoteId, app.editorContent⟩ := by
        rw [TakenoteApp.deleteNote]
        simp only [NoteManager.deleteNote, hrm]
        rw [if_pos trivial]
        rw [if_neg (show ¬ app.currentNoteId = some b by rw [ha]; simp [hne])]
      rw [hdel]
      refine ⟨?_, rfl⟩
      rw [show (⟨(NoteManager.deleteNote app.store b).2, app.currentNoteId,
          app.editorContent⟩ : AppState).store = (NoteManager.deleteNote app.store b).2
        from rfl]
      rw [NoteManager.getNoteById, NoteManager.getNoteById]
      rw [show (NoteManager.deleteNote app.store b).2.notes = l' from by
        simp only [NoteManager.deleteNote, hrm]
        rfl]
      exact find?_removeFirst_ne hrm hne

/-- C2 witness: the amended statement on a concrete two-note app state with
a pending edit. -/
theorem claim2_witness :
    (∀ nb, NoteManager.getNoteById
        (⟨⟨[⟨"A", "tA", "old", 0, 0⟩, ⟨"B", "tB", "bc", 0, 0⟩], some "A", ⟨none, ""⟩⟩,
          some "A", "edited"⟩ : AppState).store "B" = some nb →
      (∃ n ∈ (TakenoteApp.switchToNote
          ⟨⟨[⟨"A", "tA", "old", 0, 0⟩, ⟨"B", "tB", "bc", 0, 0⟩], some "A", ⟨none, ""⟩⟩,
            some "A", "edited"⟩ "B" 1).store.notes,
        n.id = "A" ∧ n.content = (⟨⟨[⟨"A", "tA", "old", 0, 0⟩, ⟨"B", "tB", "bc", 0, 0⟩],
          some "A", ⟨none, ""⟩⟩, some "A", "edited"⟩ : AppState).editorContent) ∧
      (TakenoteApp.switchToNote
        ⟨⟨[⟨"A", "tA", "old", 0, 0⟩, ⟨"B", "tB", "bc", 0, 0⟩], some "A", ⟨none, ""⟩⟩,
          some "A", "edited"⟩ "B" 1).editorContent = nb.content ∧
      (TakenoteApp.switchToNote
        ⟨⟨[⟨"A", "tA", "old", 0, 0⟩, ⟨"B", "tB", "bc", 0, 0⟩], some "A", ⟨none, ""⟩⟩,
          some "A", "edited"⟩ "B" 1).currentNoteId = some "B") ∧
    NoteManager.getNoteById (TakenoteApp.deleteNote
      ⟨⟨[⟨"A", "tA", "old", 0, 0⟩, ⟨"B", "tB", "bc", 0, 0⟩], some "A", ⟨none, ""⟩⟩,
        some "A", "edited"⟩ "B" 1 "r").store "A" =
      NoteManager.getNoteById
        (⟨⟨[⟨"A", "tA", "old", 0, 0⟩, ⟨"B", "tB", "bc", 0, 0⟩], some "A", ⟨none, ""⟩⟩,
          some "A", "edited"⟩ : AppState).store "A" ∧
    (TakenoteApp.deleteNote
      ⟨⟨[⟨"A", "tA", "old", 0, 0⟩, ⟨"B", "tB", "bc", 0, 0⟩], some "A", ⟨none, ""⟩⟩,
        some "A", "edited"⟩ "B" 1 "r").editorContent =
      (⟨⟨[⟨"A", "tA", "old", 0, 0⟩, ⟨"B", "tB", "bc", 0, 0⟩], some "A", ⟨none, ""⟩⟩,
        some "A", "edited"⟩ : AppState).editorContent :=
  claim2_amended
    ⟨⟨[⟨"A", "tA", "old", 0, 0⟩, ⟨"B", "tB", "bc", 0, 0⟩], some "A", ⟨none, ""⟩⟩,
      some "A", "edited"⟩ "A" "B" 1 "r" rfl (by decide) (by decide)
    ⟨⟨"A", "tA", "old", 0, 0⟩, by decide, rfl⟩

/-- C8 counterexample: on `"a. . b"` the code's sentence count is 2 — the
whitespace-only segment between the two periods is dropped by the
`trim`-based filter — while the number of non-empty segments produced by
splitting on runs of `.`, `!`, `?` (the claim's wording, under which the
segment `" "` is non-empty) is 3. -/
theorem claim8_counterexample :
    (NoteManager.getNoteStats "a. . b").sentences ≠
      countSegmentsNonempty (htmlToPlainText "a. . b").data := by
  decide

/-- C8 (amended): `computeStats` returns characters equal to the length of
the stripped text, words equal to the number of whitespace-delimited tokens
(0 when the stripped text is blank), and sentences equal to the number of
non-blank segments — segments containing at least one non-whitespace
character — obtained by splitting the stripped text on runs of `.`, `!`,
`?`; on `"<p>Hello world.</p>"` it returns words=2, characters=12,
sentences=1. -/
theorem claim8_amended (content : String) :
    NoteManager.getNoteStats content =
      ⟨countTokens (htmlToPlainText content).data,
        strLength (htmlToPlainText content),
        countSentenceSegments (htmlToPlainText content).data⟩ ∧
    NoteManager.getNoteStats "<p>Hello world.</p>" = ⟨2, 12, 1⟩ :=
  ⟨getNoteStats_eq content, by decide⟩

lemma updateNote_notes_length (s : StoreState) (id : String) (u : NoteManager.NoteUpdates)
    (now : Nat) : (NoteManager.updateNote s id u now).2.notes.length = s.notes.length := by
  cases hm : NoteManager.modifyFirst (NoteManager.applyUpdates u now) id s.notes with
  | none => simp only [NoteManager.updateNote, hm]
  | some p =>
    obtain ⟨m, l'⟩ := p
    simp only [NoteManager.updateNote, hm]
    obtain ⟨pre, n', post, hl, _, _, hl'⟩ := NoteManager.modifyFirst_shape hm
    rw [show (NoteManager.saveNotesToStorage { s with notes := l' }).notes = l' from rfl,
      hl', hl]
    simp

lemma updateNoteTitleFromContent_length (s : StoreState) (id c : String) (now : Nat) :
    (NoteManager.updateNoteTitleFromContent s id c now).notes.length = s.notes.length := by
  rw [updateNoteTitleFromContent_eq]
  by_cases hfl : NoteManager.extractFirstLineAsTitle c ≠ ""
  · rw [if_pos hfl]
    exact updateNote_notes_length s id _ now
  · rw [if_neg hfl]
    exact updateNote_notes_length s id _ now

lemma saveCurrentNote_notes_length (app : AppState) (now : Nat) :
    (TakenoteApp.saveCurrentNote app now).store.notes.length = app.store.notes.length := by
  cases hcur : app.currentNoteId with
  | none => simp [TakenoteApp.saveCurrentNote, hcur]
  | some cur =>
    simp only [TakenoteApp.saveCurrentNote, hcur]
    by_cases hc : cur = ""
    · rw [if_pos hc]
    · rw [if_neg hc]
      exact updateNoteTitleFromContent_length app.store cur app.editorContent now

lemma switchToNote_notes_length (app : AppState) (id : String) (now : Nat) :
    (TakenoteApp.switchToNote app id now).store.notes.length = app.store.notes.length := by
  cases hm : NoteManager.getNoteById app.store id with
  | none => simp only [TakenoteApp.switchToNote, hm]
  | some note =>
    cases hcur : app.currentNoteId with
    | none =>
      simp only [TakenoteApp.switchToNote, hm, hcur]
      rw [setActiveNote_notes]
    | some cur =>
      simp only [TakenoteApp.switchToNote, hm, hcur]
      by_cases hc : cur = "" ∨ cur = id
      · rw [if_pos hc, setActiveNote_notes]
      · rw [if_neg hc, setActiveNote_notes]
        exact saveCurrentNote_notes_length app now

/-- C9: a file whose declared MIME type is neither `text/plain` nor
`text/markdown` and whose lowercased name ends in neither `.txt` nor `.md`
is rejected before any import — the whole application state (note
collection and active id included) is returned unchanged; a file passing
either check is accepted for reading, and when the read succeeds exactly
one note is added to the collection. -/
theorem claim9_upload (app : AppState) (f : TakenoteApp.FileInfo) (r : Option String)
    (now : Nat) (rand : String) :
    (f.type' ≠ "text/plain" → f.type' ≠ "text/markdown" →
      strEndsWith (strToLower f.name) ".txt" = false →
      strEndsWith (strToLower f.name) ".md" = false →
      TakenoteApp.handleFileUpload app f r now rand = app) ∧
    ((f.type' = "text/plain" ∨ f.type' = "text/markdown" ∨
        strEndsWith (strToLower f.name) ".txt" = true ∨
        strEndsWith (strToLower f.name) ".md" = true) →
      ∀ content, r = some content →
        (TakenoteApp.handleFileUpload app f r now rand).store.notes.length =
          app.store.notes.length + 1) := by
  constructor
  · intro h1 h2 h3 h4
    rw [TakenoteApp.handleFileUpload.eq_def]
    rw [if_pos]
    constructor
    · simp [TakenoteApp.allowedTypes, h1, h2]
    · simp [TakenoteApp.allowedExtensions, h3, h4]
  · intro hvalid content hr
    subst hr
    rw [TakenoteApp.handleFileUpload.eq_def]
    rw [if_neg (by
      simp only [TakenoteApp.allowedTypes, TakenoteApp.allowedExtensions]
      rcases hvalid with h | h | h | h <;> simp [h])]
    rw [switchToNote_notes_length]
    simp [NoteManager.importTextContent, NoteManager.createNote,
      NoteManager.saveNotesToStorage]

/-- C9 witness: a `.pdf` upload (MIME `application/pdf`) is rejected with
the state unchanged, while a `.txt` upload with a successful read adds one
note. -/
theorem claim9_witness :
    TakenoteApp.handleFileUpload ⟨emptyStore, none, ""⟩ ⟨"doc.pdf", "application/pdf"⟩
      (some "x") 0 "r" = ⟨emptyStore, none, ""⟩ ∧
    (TakenoteApp.handleFileUpload ⟨emptyStore, none, ""⟩ ⟨"notes.txt", "text/plain"⟩
      (some "hello") 0 "r").store.notes.length =
      (⟨emptyStore, none, ""⟩ : AppState).store.notes.length + 1 :=
  ⟨(claim9_upload ⟨emptyStore, none, ""⟩ ⟨"doc.pdf", "application/pdf"⟩ (some "x") 0 "r").1
      (by decide) (by decide) (by decide) (by decide),
    (claim9_upload ⟨emptyStore, none, ""⟩ ⟨"notes.txt", "text/plain"⟩ (some "hello") 0 "r").2
      (Or.inl rfl) "hello" rfl⟩

lemma mem_of_mem_trimL {c : Char} {x : List Char} (h : c ∈ trimL x) : c ∈ x := by
  unfold trimL trimEnd dropWs at h
  exact List.dropWhile_subset _
    (List.mem_reverse.mp (List.dropWhile_subset _ (List.mem_reverse.mp h)))

lemma noMk_importPieces {text : String} (h : ∀ c ∈ text.data, noMk c) :
    ∀ l ∈ NoteManager.importPieces text, ∀ c ∈ l, noMk c := by
  intro l hl c hc
  have hl' := (List.mem_filter.mp hl).1
  obtain ⟨piece, hpiece, htrim⟩ := List.mem_map.mp hl'
  rw [← htrim] at hc
  exact h c (splitP_mem_subset hpiece (mem_of_mem_trimL hc))

lemma string_data_ne_nil {s : String} (h : s ≠ "") : s.data ≠ [] := by
  intro hd
  apply h
  cases s
  rw [show ("" : String) = ⟨[]⟩ from rfl]
  exact congrArg String.mk hd

/-- C3 counterexample: the two-line text `"a\nb"` contains no
markup-significant character, yet `importText` followed by `exportAsText`
yields `"ab"` — the newline separating the two paragraph blocks is not
recovered, so the round-trip is not the original text. -/
theorem claim3_counterexample :
    (NoteManager.exportNoteAsText
      (NoteManager.importTextContent emptyStore "a\nb" "f.txt" 0 "r").2
      (NoteManager.importTextContent emptyStore "a\nb" "f.txt" 0 "r").1.id).map
        NoteManager.ExportData.content = some "ab" ∧
    ("ab" : String) ≠ "a\nb" ∧ (∀ c ∈ ("a\nb" : String).data, noMk c) :=
  ⟨by decide, by decide, by decide⟩

/-- C3 (amended): for text free of markup-significant characters, the
import/export round-trip returns the concatenation of the trimmed non-blank
lines of the original text — paragraph framing, line separators, blank
lines and per-line surrounding whitespace are consumed — and in particular
it returns the text exactly when the text is a single non-blank line with
no leading or trailing whitespace. -/
theorem claim3_amended (s : StoreState) (text fn : String) (now : Nat) (rand : String)
    (h : ∀ c ∈ text.data, noMk c) :
    (NoteManager.exportNoteAsText (NoteManager.importTextContent s text fn now rand).2
      (NoteManager.importTextContent s text fn now rand).1.id).map
        NoteManager.ExportData.content =
      some ⟨(NoteManager.importPieces text).flatten⟩ ∧
    ('\n' ∉ text.data → trimL text.data = text.data → text ≠ "" →
      (NoteManager.exportNoteAsText (NoteManager.importTextContent s text fn now rand).2
        (NoteManager.importTextContent s text fn now rand).1.id).map
          NoteManager.ExportData.content = some text) := by
  have hpieces := noMk_importPieces h
  have hmain :
      (NoteManager.exportNoteAsText (NoteManager.importTextContent s text fn now rand).2
        (NoteManager.importTextContent s text fn now rand).1.id).map
          NoteManager.ExportData.content =
        some ⟨(NoteManager.importPieces text).flatten⟩ := by
    have hfind :
        NoteManager.getNoteById (NoteManager.importTextContent s text fn now rand).2
          (NoteManager.importTextContent s text fn now rand).1.id =
          some (NoteManager.importTextContent s text fn now rand).1 := by
      show List.find? _ ((NoteManager.importTextContent s text fn now rand).1 :: s.notes) = _
      rw [List.find?_cons_of_pos _ (by simp)]
    rw [NoteManager.exportNoteAsText, hfind]
    rw [show ∀ n : Note, (some n).map (fun note : Note =>
        (⟨note.title, htmlToPlainText note.content,
          NoteManager.sanitizeFilename note.title ++ ".txt"⟩ : NoteManager.ExportData)) =
        some ⟨n.title, htmlToPlainText n.content,
          NoteManager.sanitizeFilename n.title ++ ".txt"⟩ from fun n => rfl]
    rw [show ((some (⟨(NoteManager.importTextContent s text fn now rand).1.title,
        htmlToPlainText (NoteManager.importTextContent s text fn now rand).1.content,
        NoteManager.sanitizeFilename (NoteManager.importTextContent s text fn now rand).1.title
          ++ ".txt"⟩ : NoteManager.ExportData)).map NoteManager.ExportData.content) =
        some (htmlToPlainText (NoteManager.importTextContent s text fn now rand).1.content)
      from rfl]
    have hcontent : (NoteManager.importTextContent s text fn now rand).1.content =
        (if (⟨((NoteManager.importPieces text).map
            (fun l => '<' :: 'p' :: '>' :: (escapeL l ++ ('<' :: '/' :: 'p' :: '>' :: [])))).flatten⟩
            : String) = "" then "<p></p>"
        else ⟨((NoteManager.importPieces text).map
            (fun l => '<' :: 'p' :: '>' :: (escapeL l ++ ('<' :: '/' :: 'p' :: '>' :: [])))).flatten⟩) :=
      rfl
    rw [hcontent]
    by_cases hJ : (⟨((NoteManager.importPieces text).map
        (fun l => '<' :: 'p' :: '>' :: (escapeL l ++ ('<' :: '/' :: 'p' :: '>' :: [])))).flatten⟩
        : String) = ""
    · rw [if_pos hJ]
      have hflat := string_mk_eq_empty hJ
      have hnil : NoteManager.importPieces text = [] := by
        cases hp : NoteManager.importPieces text with
        | nil => rfl
        | cons l ls =>
          exfalso
          rw [hp] at hflat
          have := List.flatten_eq_nil_iff.mp hflat
            ('<' :: 'p' :: '>' :: (escapeL l ++ ('<' :: '/' :: 'p' :: '>' :: [])))
            (by simp)
          cases this
      rw [hnil]
      decide
    · rw [if_neg hJ]
      rw [show htmlToPlainText (⟨((NoteManager.importPieces text).map
          (fun l => '<' :: 'p' :: '>' :: (escapeL l ++ ('<' :: '/' :: 'p' :: '>' :: [])))).flatten⟩
          : String) =
          ⟨decodeEntities (stripTags ((NoteManager.importPieces text).map
            (fun l => '<' :: 'p' :: '>' :: (escapeL l ++ ('<' :: '/' :: 'p' :: '>' :: [])))).flatten)⟩
        from rfl]
      rw [stripTags_blocks _ hpieces]
      rw [decodeEntities_no_amp (fun c hc => by
        obtain ⟨l, hl, hcl⟩ := List.mem_flatten.mp hc
        exact (hpieces l hl c hcl).1)]
  refine ⟨hmain, ?_⟩
  intro hnl htrim hne
  rw [hmain]
  have hsingle : NoteManager.importPieces text = [text.data] := by
    unfold NoteManager.importPieces splitNlL
    rw [splitP_no_delim (fun c hc => by simp; intro hcontra; exact hnl (hcontra ▸ hc))]
    rw [List.map_cons, List.map_nil, htrim]
    rw [List.filter_cons_of_pos (by simpa using string_data_ne_nil hne)]
    rfl
  rw [hsingle]
  rw [show ([text.data] : List (List Char)).flatten = text.data by simp]

/-- C3 witness: round-tripping the single-line text `"hello"`. -/
theorem claim3_witness :
    (NoteManager.exportNoteAsText
      (NoteManager.importTextContent emptyStore "hello" "f.txt" 0 "r").2
      (NoteManager.importTextContent emptyStore "hello" "f.txt" 0 "r").1.id).map
        NoteManager.ExportData.content =
      some ⟨(NoteManager.importPieces "hello").flatten⟩ ∧
    ('\n' ∉ ("hello" : String).data →
      trimL ("hello" : String).data = ("hello" : String).data →
      ("hello" : String) ≠ "" →
      (NoteManager.exportNoteAsText
        (NoteManager.importTextContent emptyStore "hello" "f.txt" 0 "r").2
        (NoteManager.importTextContent emptyStore "hello" "f.txt" 0 "r").1.id).map
          NoteManager.ExportData.content = some "hello") :=
  claim3_amended emptyStore "hello" "f.txt" 0 "r" (by decide)

lemma string_append_ne_empty_left {a : String} (b : String) (h : a ≠ "") :
    a ++ b ≠ "" := by
  intro hc
  apply h
  have hd : a.data ++ b.data = ([] : List Char) := by
    rw [← strdata_append]
    exact congrArg String.data hc
  have ha : a.data = [] := (List.append_eq_nil.mp hd).1
  cases a
  rw [show ("" : String) = ⟨[]⟩ from rfl]
  exact congrArg String.mk ha

lemma strTake_ne_empty {s : String} (n : Nat) (hn : n ≠ 0) (h : s ≠ "") :
    strTake s n ≠ "" := by
  intro hc
  apply h
  have hd : s.data.take n = [] := string_mk_eq_empty hc
  rcases List.take_eq_nil_iff.mp hd with h1 | h1
  · exact absurd h1 hn
  · cases s
    rw [show ("" : String) = ⟨[]⟩ from rfl]
    exact congrArg String.mk h1

lemma updateNote_preserves_titles {s : StoreState} {id : String}
    {u : NoteManager.NoteUpdates} {now : Nat}
    (h : ∀ n ∈ s.notes, n.title ≠ "")
    (hu : ∀ t', u.title = some t' → t' ≠ "") :
    ∀ n ∈ (NoteManager.updateNote s id u now).2.notes, n.title ≠ "" := by
  cases hm : NoteManager.modifyFirst (NoteManager.applyUpdates u now) id s.notes with
  | none => simpa only [NoteManager.updateNote, hm] using h
  | some p =>
    obtain ⟨m, l'⟩ := p
    simp only [NoteManager.updateNote, hm]
    obtain ⟨pre, n', post, hl, hid, hfm, hl'⟩ := NoteManager.modifyFirst_shape hm
    intro n hn
    rw [show (NoteManager.saveNotesToStorage { s with notes := l' }).notes = l' from rfl,
      hl'] at hn
    rcases List.mem_append.mp hn with h1 | h1
    · exact h n (by rw [hl]; exact List.mem_append_left _ h1)
    · rcases List.mem_cons.mp h1 with h2 | h2
      · rw [h2, hfm]
        show u.title.getD n'.title ≠ ""
        cases hut : u.title with
        | none =>
          show n'.title ≠ ""
          exact h n' (by rw [hl]; exact List.mem_append_right _ (List.mem_cons_self _ _))
        | some t' =>
          show t' ≠ ""
          exact hu t' hut
      · exact h n (by rw [hl]; exact List.mem_append_right _ (List.mem_cons_of_mem _ h2))

/-- `updateNoteTitleFromContent` preserves the non-empty-title invariant for
every input: when a first line is extractable the derived title (a
truncation of that non-empty line, possibly with a `"..."` suffix) is
non-empty, and otherwise the title is left unchanged. -/
lemma updateNoteTitleFromContent_preserves_titles {s : StoreState} {id : String}
    (c : String) (now : Nat) (h : ∀ n ∈ s.notes, n.title ≠ "") :
    ∀ n ∈ (NoteManager.updateNoteTitleFromContent s id c now).notes, n.title ≠ "" := by
  rw [updateNoteTitleFromContent_eq]
  by_cases hfl : NoteManager.extractFirstLineAsTitle c ≠ ""
  · rw [if_pos hfl]
    apply updateNote_preserves_titles h
    intro t' ht'
    have ht'' : t' = strTake (NoteManager.extractFirstLineAsTitle c) 50 ++
        (if 50 < strLength (NoteManager.extractFirstLineAsTitle c) then "..." else "") := by
      simpa using ht'.symm
    rw [ht'']
    exact string_append_ne_empty_left _ (strTake_ne_empty 50 (by decide) hfl)
  · rw [if_neg hfl]
    apply updateNote_preserves_titles h
    intro t' ht'
    simp at ht'

/-- C1 (amended): `updateTitle` coerces empty or whitespace-only input to
"Untitled Note" and `updateTitleFromContent` only ever derives a non-empty
title (or leaves the title unchanged), so both preserve the non-empty-title
invariant, as do `createNote` with its title argument omitted and `delete`;
but the "Untitled Note" default fires only when `createNote`'s title
argument is omitted: `createNote` and `update` store an explicitly supplied
title verbatim — including an empty or whitespace-only one — and
`importText` stores an empty title when the filename stem is empty, so the
invariant does not hold across every operation. -/
theorem claim1_amended (s : StoreState) (id t c : String) (now : Nat) (rand : String)
    (h : ∀ n ∈ s.notes, n.title ≠ "") :
    (∀ n ∈ (NoteManager.updateNoteTitle s id t now).2.notes, n.title ≠ "") ∧
    (∀ m, (NoteManager.updateNoteTitle s id t now).1 = some m →
      m.title = (if trimStr t = "" then "Untitled Note" else trimStr t)) ∧
    (∀ n ∈ (NoteManager.updateNoteTitleFromContent s id c now).notes, n.title ≠ "") ∧
    (∀ n ∈ (NoteManager.createNote s now rand).2.notes, n.title ≠ "") ∧
    (∀ n ∈ (NoteManager.deleteNote s id).2.notes, n.title ≠ "") ∧
    (NoteManager.createNote s now rand t c).1.title = t ∧
    (NoteManager.createNote s now rand t c).1 ∈
      (NoteManager.createNote s now rand t c).2.notes ∧
    (∀ m, (NoteManager.updateNote s id ⟨some t, some c⟩ now).1 = some m →
      m.title = t) := by
  have htitle : (if trimStr t = "" then "Untitled Note" else trimStr t) ≠ "" := by
    by_cases ht : trimStr t = ""
    · rw [if_pos ht]
      decide
    · rw [if_neg ht]
      exact ht
  refine ⟨?_, ?_, updateNoteTitleFromContent_preserves_titles c now h, ?_, ?_, rfl,
    List.mem_cons_self _ _, ?_⟩
  · cases hm : NoteManager.modifyFirst
        (fun n =>
          { n with
            title := if trimStr t = "" then "Untitled Note" else trimStr t
            updatedAt := now }) id s.notes with
    | none =>
      simpa only [NoteManager.updateNoteTitle, hm] using h
    | some p =>
      obtain ⟨m, l'⟩ := p
      simp only [NoteManager.updateNoteTitle, hm]
      obtain ⟨pre, n', post, hl, hid, hfm, hl'⟩ := NoteManager.modifyFirst_shape hm
      intro n hn
      rw [show (NoteManager.saveNotesToStorage { s with notes := l' }).notes = l' from rfl,
        hl'] at hn
      rcases List.mem_append.mp hn with h1 | h1
      · exact h n (by rw [hl]; exact List.mem_append_left _ h1)
      · rcases List.mem_cons.mp h1 with h2 | h2
        · rw [h2, hfm]
          exact htitle
        · exact h n (by rw [hl]; exact List.mem_append_right _ (List.mem_cons_of_mem _ h2))
  · cases hm : NoteManager.modifyFirst
        (fun n =>
          { n with
            title := if trimStr t = "" then "Untitled Note" else trimStr t
            updatedAt := now }) id s.notes with
    | none =>
      intro m hcontra
      simp only [NoteManager.updateNoteTitle, hm] at hcontra
      cases hcontra
    | some p =>
      obtain ⟨m₀, l'⟩ := p
      intro m hm₀
      simp only [NoteManager.updateNoteTitle, hm] at hm₀
      obtain ⟨pre, n', post, hl, hid, hfm, hl'⟩ := NoteManager.modifyFirst_shape hm
      have hmm : m₀ = m := by simpa using hm₀
      rw [← hmm, hfm]
  · intro n hn
    rcases List.mem_cons.mp hn with h1 | h1
    · rw [h1]
      show ("Untitled Note" : String) ≠ ""
      decide
    · exact h n h1
  · cases hm : NoteManager.removeFirst id s.notes with
    | none =>
      simpa only [NoteManager.deleteNote, hm] using h
    | some l' =>
      simp only [NoteManager.deleteNote, hm]
      obtain ⟨pre, n', post, hl, hid, hpre, hl'⟩ := NoteManager.removeFirst_shape hm
      intro n hn
      rw [show ∀ x, (NoteManager.saveNotesToStorage { s with notes := l', activeNoteId := x }).notes
          = l' from fun x => rfl, hl'] at hn
      rcases List.mem_append.mp hn with h1 | h1
      · exact h n (by rw [hl]; exact List.mem_append_left _ h1)
      · exact h n (by rw [hl]; exact List.mem_append_right _ (List.mem_cons_of_mem _ h1))
  · cases hm : NoteManager.modifyFirst
        (NoteManager.applyUpdates ⟨some t, some c⟩ now) id s.notes with
    | none =>
      intro m hcontra
      simp only [NoteManager.updateNote, hm] at hcontra
      cases hcontra
    | some p =>
      obtain ⟨m₀, l'⟩ := p
      intro m hm₀
      simp only [NoteManager.updateNote, hm] at hm₀
      obtain ⟨pre, n', post, hl, hid, hfm, hl'⟩ := NoteManager.modifyFirst_shape hm
      have hmm : m₀ = m := by simpa using hm₀
      rw [← hmm, hfm]
      rfl

/-- C1 witness: a concrete one-note store with a non-empty title,
exercising coercion on the whitespace-only input `"  "` and the verbatim
storage of that same input by `createNote` and `update`. -/
theorem claim1_witness :
    (∀ n ∈ (NoteManager.updateNoteTitle ⟨[⟨"A", "t", "c", 0, 0⟩], some "A", ⟨none, ""⟩⟩
      "A" "  " 1).2.notes, n.title ≠ "") ∧
    (∀ m, (NoteManager.updateNoteTitle ⟨[⟨"A", "t", "c", 0, 0⟩], some "A", ⟨none, ""⟩⟩
      "A" "  " 1).1 = some m →
      m.title = (if trimStr "  " = "" then "Untitled Note" else trimStr "  ")) ∧
    (∀ n ∈ (NoteManager.updateNoteTitleFromContent
      ⟨[⟨"A", "t", "c", 0, 0⟩], some "A", ⟨none, ""⟩⟩ "A" "<p>x</p>" 1).notes,
      n.title ≠ "") ∧
    (∀ n ∈ (NoteManager.createNote ⟨[⟨"A", "t", "c", 0, 0⟩], some "A", ⟨none, ""⟩⟩
      1 "r").2.notes, n.title ≠ "") ∧
    (∀ n ∈ (NoteManager.deleteNote ⟨[⟨"A", "t", "c", 0, 0⟩], some "A", ⟨none, ""⟩⟩
      "A").2.notes, n.title ≠ "") ∧
    (NoteManager.createNote ⟨[⟨"A", "t", "c", 0, 0⟩], some "A", ⟨none, ""⟩⟩
      1 "r" "  " "<p>x</p>").1.title = "  " ∧
    (NoteManager.createNote ⟨[⟨"A", "t", "c", 0, 0⟩], some "A", ⟨none, ""⟩⟩
      1 "r" "  " "<p>x</p>").1 ∈
      (NoteManager.createNote ⟨[⟨"A", "t", "c", 0, 0⟩], some "A", ⟨none, ""⟩⟩
        1 "r" "  " "<p>x</p>").2.notes ∧
    (∀ m, (NoteManager.updateNote ⟨[⟨"A", "t", "c", 0, 0⟩], some "A", ⟨none, ""⟩⟩
      "A" ⟨some "  ", some "<p>x</p>"⟩ 1).1 = some m → m.title = "  ") :=
  claim1_amended ⟨[⟨"A", "t", "c", 0, 0⟩], some "A", ⟨none, ""⟩⟩ "A" "  " "<p>x</p>" 1 "r"
    (by decide)
